import Mathlib

/-!
Binding state cache of the Rendering library.

A shallow embedding of `RenderingContext/BindingState.cpp`
(`bindOrRemoveBuffer`, `BindingState::makeDiff`, `BindingState::apply`), of
the hierarchical binding state of `State/BindingState.h` and of the indexed
setters of `RenderingContext/PipelineState.cpp`, followed by theorems about
them. Headers and method bodies that are not part of the sources are modelled
from the specification or taken as parameters, and marked as such.

Conventions of the embedding:

* a resource reference (`Util::Reference<...>`) is `Option Nat`: `none` is the
  null reference, `some b` is the object with identity `b`; reference
  comparison is identity comparison;
* the externally owned, mutable part of a buffer or texture (live offset,
  live size, GL id) is read through a `Heap`;
* an `unordered_map` is an association list whose order is the (arbitrary)
  iteration order; well-formed maps have pairwise distinct keys;
* the 64-bit union key `{target; location}` is the pair of its two 32-bit
  halves;
* `std::bitset<N>` is a list of `N` booleans; `set` and `test` throw
  `std::out_of_range` on a bad position, modelled by `none`;
* native GL calls are collected in a trace (`List GLCall`);
  `GET_GL_ERROR()` is a diagnostic and is not modelled.
-/

namespace Rendering

/-! ## GL enumerants used by the switch in `makeDiff` and by `apply` -/

/-- Value of the OpenGL enumerant `GL_SHADER_STORAGE_BUFFER`. -/
def GL_SHADER_STORAGE_BUFFER : Nat := 0x90D2
/-- Value of the OpenGL enumerant `GL_UNIFORM_BUFFER`. -/
def GL_UNIFORM_BUFFER : Nat := 0x8A11
/-- Value of the OpenGL enumerant `GL_ATOMIC_COUNTER_BUFFER`. -/
def GL_ATOMIC_COUNTER_BUFFER : Nat := 0x92C0
/-- Value of the OpenGL enumerant `GL_TRANSFORM_FEEDBACK_BUFFER`. -/
def GL_TRANSFORM_FEEDBACK_BUFFER : Nat := 0x8C8E

/-! ## External collaborators -/

/-- The live, externally mutable data the cache reads through a reference:
`buffer->getOffset()`, `buffer->getSize()` and `texture->getGLId()`. -/
structure Heap where
  getOffset : Nat → Nat
  getSize : Nat → Nat
  getGLId : Nat → Nat

/-- Capacities that come from the header and the device: the sizes of the
five bitsets of `StateDiff_t` and the value of `getMaxTextureBindings()`. -/
structure Limits where
  maxSSBOs : Nat
  maxUBOs : Nat
  maxACBOs : Nat
  maxTFBOs : Nat
  maxTextures : Nat
  maxTextureBindings : Nat

/-! ## Association lists standing for `std::unordered_map` -/

/-- The `find` of a map: the value stored under `k`, if any. -/
def mapFind {κ α : Type} [DecidableEq κ] : List (κ × α) → κ → Option α
  | [], _ => none
  | (k', v) :: rest, k => if k' = k then some v else mapFind rest k

/-- The `erase(it)` of a map, `it` being the element found under `k`. -/
def mapErase {κ α : Type} [DecidableEq κ] : List (κ × α) → κ → List (κ × α)
  | [], _ => []
  | (k', v) :: rest, k => if k' = k then rest else (k', v) :: mapErase rest k

/-- Assignment through the iterator found under `k`: `it->second = v`. -/
def mapAssign {κ α : Type} [DecidableEq κ] : List (κ × α) → κ → α → List (κ × α)
  | [], _, _ => []
  | (k', v') :: rest, k, v =>
    if k' = k then (k', v) :: rest else (k', v') :: mapAssign rest k v

/-- The keys of a map, in iteration order. -/
def mapKeys {κ α : Type} (l : List (κ × α)) : List κ := l.map Prod.fst

/-! ## Data model of `RenderingContext/BindingState` -/

/-- The composite key of a buffer slot: the union of `target` and `location`. -/
abbrev BufferKey := Nat × Nat

/-- Modelled from the spec: the record `BindingState::BufferBinding` (its
declaration is in the header, which is not part of the sources): the buffer
reference, the recorded extent, and the role and location whose union is
`_key`. -/
structure BufferBinding where
  buffer : Option Nat
  offset : Nat
  size : Nat
  target : Nat
  location : Nat
deriving DecidableEq

/-- The union member `_key` of a record. -/
def BufferBinding._key (e : BufferBinding) : BufferKey := (e.target, e.location)

/-- Modelled from the spec: the default-constructed record that stands for an
absent slot (empty reference, zero extent). -/
def BufferBinding.empty : BufferBinding := ⟨none, 0, 0, 0, 0⟩

/-- Modelled from the spec: `operator!=` of `BufferBinding`, "identity
inequality of the resource reference OR inequality of any auxiliary binding
metadata (e.g. recorded extent)". -/
def BufferBinding.differs (a b : BufferBinding) : Bool :=
  a.buffer != b.buffer || a.offset != b.offset || a.size != b.size

/-- The state of `RenderingContext/BindingState`: the buffer records by
composite key and the texture references by unit. -/
structure BindingState where
  buffers : List (BufferKey × BufferBinding)
  textures : List (Nat × Option Nat)
deriving DecidableEq

/-- Modelled from the spec: `getBufferBinding(key)`, the record stored under
`key`, an absent slot read as the default-constructed record. -/
def BindingState.getBufferBinding (s : BindingState) (key : BufferKey) : BufferBinding :=
  match mapFind s.buffers key with
  | some e => e
  | none => BufferBinding.empty

/-- Modelled from the spec: `getTexture(unit)`, the reference stored at
`unit`, an absent unit read as the null reference. -/
def BindingState.getTexture (s : BindingState) (unit : Nat) : Option Nat :=
  match mapFind s.textures unit with
  | some t => t
  | none => none

/-! ## `std::bitset` and `StateDiff_t` -/

/-- A `std::bitset<N>`: `N` is the length of `bits`. -/
structure Bitset where
  bits : List Bool
deriving DecidableEq

/-- The default-constructed bitset of capacity `n`: all bits clear. -/
def Bitset.zero (n : Nat) : Bitset := ⟨List.replicate n false⟩

/-- The capacity `size()`. -/
def Bitset.size (b : Bitset) : Nat := b.bits.length

/-- The call `set(pos, value)`; `none` is `std::out_of_range`. -/
def Bitset.set (b : Bitset) (pos : Nat) (value : Bool) : Option Bitset :=
  if pos < b.bits.length then some ⟨List.set b.bits pos value⟩ else none

/-- The call `test(pos)`; `none` is `std::out_of_range`. -/
def Bitset.test (b : Bitset) (pos : Nat) : Option Bool := b.bits[pos]?

/-- The call `any()`. -/
def Bitset.any (b : Bitset) : Bool := b.bits.any id

/-- The diff: one bitset per category. -/
structure StateDiff_t where
  ssbos : Bitset
  ubos : Bitset
  acbos : Bitset
  tfbos : Bitset
  textures : Bitset
deriving DecidableEq

/-- The default-constructed diff. -/
def StateDiff_t.init (lim : Limits) : StateDiff_t :=
  ⟨Bitset.zero lim.maxSSBOs, Bitset.zero lim.maxUBOs, Bitset.zero lim.maxACBOs,
   Bitset.zero lim.maxTFBOs, Bitset.zero lim.maxTextures⟩

/-! ## `BindingState::makeDiff` -/

/-- The local `changed` of both buffer loops: the record holds a buffer whose
recorded offset or size is not the live one. -/
def changed (h : Heap) (e : BufferBinding) : Bool :=
  match e.buffer with
  | some b => e.offset != h.getOffset b || e.size != h.getSize b
  | none => false

/-- The body of the two buffer loops of `makeDiff`; `other` is the state
whose `getBufferBinding` is consulted (`target` in the first loop, `this` in
the second). A target outside the four cases writes no bit. -/
def diffBufferStep (h : Heap) (forced : Bool) (other : BindingState)
    (diff : StateDiff_t) (e : BufferBinding) : Option StateDiff_t :=
  let key := e._key
  let value := forced || changed h e || (other.getBufferBinding key).differs e
  if e.target = GL_SHADER_STORAGE_BUFFER then
    (diff.ssbos.set e.location value).map fun b => { diff with ssbos := b }
  else if e.target = GL_UNIFORM_BUFFER then
    (diff.ubos.set e.location value).map fun b => { diff with ubos := b }
  else if e.target = GL_ATOMIC_COUNTER_BUFFER then
    (diff.acbos.set e.location value).map fun b => { diff with acbos := b }
  else if e.target = GL_TRANSFORM_FEEDBACK_BUFFER then
    (diff.tfbos.set e.location value).map fun b => { diff with tfbos := b }
  else some diff

/-- A buffer loop of `makeDiff` over the records of one state. -/
def diffBuffers (h : Heap) (forced : Bool) (other : BindingState) :
    List (BufferKey × BufferBinding) → StateDiff_t → Option StateDiff_t
  | [], diff => some diff
  | (_, e) :: rest, diff =>
    match diffBufferStep h forced other diff e with
    | none => none
    | some diff1 => diffBuffers h forced other rest diff1

/-- A texture loop of `makeDiff` over the units of one state. -/
def diffTextures (forced : Bool) (other : BindingState) :
    List (Nat × Option Nat) → StateDiff_t → Option StateDiff_t
  | [], diff => some diff
  | (unit, tex) :: rest, diff =>
    match diff.textures.set unit (forced || other.getTexture unit != tex) with
    | none => none
    | some b => diffTextures forced other rest { diff with textures := b }

/-- The function `BindingState::makeDiff(target, forced)` of the state `self`. -/
def makeDiff (h : Heap) (lim : Limits) (self target : BindingState) (forced : Bool) :
    Option StateDiff_t :=
  (diffBuffers h forced target self.buffers (StateDiff_t.init lim)).bind fun d1 =>
  (diffBuffers h forced self target.buffers d1).bind fun d2 =>
  (diffTextures forced target self.textures d2).bind fun d3 =>
  diffTextures forced self target.textures d3

/-! ## `bindOrRemoveBuffer` and `BindingState::apply` -/

/-- The native calls `apply` can issue. -/
inductive GLCall where
  /-- The call `buffer->bind(target, location)` on the buffer `buffer`. -/
  | bufferBind (buffer target location : Nat)
  /-- The call `glBindBufferBase(target, location, id)`. -/
  | glBindBufferBase (target location id : Nat)
  /-- The call `glBindTextureUnit(unit, id)`. -/
  | glBindTextureUnit (unit id : Nat)
deriving DecidableEq

/-- The function `bindOrRemoveBuffer(bindings, target, location)`, acting on
the map and the trace of native calls. -/
def bindOrRemoveBuffer (h : Heap) (st : List (BufferKey × BufferBinding) × List GLCall)
    (target location : Nat) : List (BufferKey × BufferBinding) × List GLCall :=
  let key : BufferKey := (target, location)
  match mapFind st.1 key with
  | some e =>
    match e.buffer with
    | some b =>
      (mapAssign st.1 key { e with offset := h.getOffset b, size := h.getSize b },
       st.2 ++ [GLCall.bufferBind b target location])
    | none => (mapErase st.1 key, st.2 ++ [GLCall.glBindBufferBase target location 0])
  | none => st

/-- One of the four buffer loops of `apply`:
`for(uint_fast8_t i = i0; i < bits.size(); ++i) if(bits.test(i)) bindOrRemoveBuffer(...)`.
The counter is 8 bits wide, so `++i` is taken modulo `2^8`. The first argument
is the fuel: `none` is returned when it runs out, and when `test` throws. -/
def applyBufferLoop (h : Heap) (bits : Bitset) (target : Nat) :
    Nat → Nat → List (BufferKey × BufferBinding) × List GLCall →
    Option (List (BufferKey × BufferBinding) × List GLCall)
  | 0, _, _ => none
  | fuel + 1, i, st =>
    if i < bits.size then
      match bits.test i with
      | none => none
      | some true =>
        applyBufferLoop h bits target fuel ((i + 1) % 256) (bindOrRemoveBuffer h st target i)
      | some false => applyBufferLoop h bits target fuel ((i + 1) % 256) st
    else some st

/-- One of the four guarded blocks `if(bits.any()) { for ... }` of `apply`. -/
def applyBuffers (h : Heap) (fuel : Nat) (bits : Bitset) (target : Nat)
    (st : List (BufferKey × BufferBinding) × List GLCall) :
    Option (List (BufferKey × BufferBinding) × List GLCall) :=
  if bits.any then applyBufferLoop h bits target fuel 0 st else some st

/-- The body of the texture loop of `apply` for a set bit `i`. -/
def applyTextureStep (h : Heap) (st : List (Nat × Option Nat) × List GLCall) (i : Nat) :
    List (Nat × Option Nat) × List GLCall :=
  match mapFind st.1 i with
  | some (some t) => (st.1, st.2 ++ [GLCall.glBindTextureUnit i (h.getGLId t)])
  | some none => (mapErase st.1 i, st.2 ++ [GLCall.glBindTextureUnit i 0])
  | none => st

/-- The texture loop of `apply`:
`for(uint_fast8_t i = i0; i < getMaxTextureBindings(); ++i) if(diff.textures.test(i)) ...`. -/
def applyTextureLoop (h : Heap) (bits : Bitset) (maxTextureBindings : Nat) :
    Nat → Nat → List (Nat × Option Nat) × List GLCall →
    Option (List (Nat × Option Nat) × List GLCall)
  | 0, _, _ => none
  | fuel + 1, i, st =>
    if i < maxTextureBindings then
      match bits.test i with
      | none => none
      | some true =>
        applyTextureLoop h bits maxTextureBindings fuel ((i + 1) % 256) (applyTextureStep h st i)
      | some false => applyTextureLoop h bits maxTextureBindings fuel ((i + 1) % 256) st
    else some st

/-- The guarded texture block of `apply`. -/
def applyTextures (h : Heap) (fuel : Nat) (bits : Bitset) (maxTextureBindings : Nat)
    (st : List (Nat × Option Nat) × List GLCall) :
    Option (List (Nat × Option Nat) × List GLCall) :=
  if bits.any then applyTextureLoop h bits maxTextureBindings fuel 0 st else some st

/-- The function `BindingState::apply(diff)` of the state `s`: the state it
leaves and the native calls it issued, in order. Each loop gets `fuel`
iterations; `none` means that a loop did not finish within them or that
`test` threw. -/
def apply (h : Heap) (lim : Limits) (fuel : Nat) (s : BindingState) (diff : StateDiff_t) :
    Option (BindingState × List GLCall) :=
  (applyBuffers h fuel diff.ssbos GL_SHADER_STORAGE_BUFFER (s.buffers, [])).bind fun st1 =>
  (applyBuffers h fuel diff.ubos GL_UNIFORM_BUFFER st1).bind fun st2 =>
  (applyBuffers h fuel diff.acbos GL_ATOMIC_COUNTER_BUFFER st2).bind fun st3 =>
  (applyBuffers h fuel diff.tfbos GL_TRANSFORM_FEEDBACK_BUFFER st3).bind fun st4 =>
  (applyTextures h fuel diff.textures lim.maxTextureBindings (s.textures, st4.2)).bind fun st5 =>
  some (⟨st4.1, st5.1⟩, st5.2)

/-! ## Vocabulary of the statements -/

/-- The last entry stored under `k`, in iteration order. On a map (pairwise
distinct keys) it is the entry `mapFind` returns. -/
def mapFindLast {κ α : Type} [DecidableEq κ] : List (κ × α) → κ → Option α
  | [], _ => none
  | (k', v) :: rest, k =>
    match mapFindLast rest k with
    | some w => some w
    | none => if k' = k then some v else none

/-- The records of a buffer map listed under their own `_key`, which is where
`makeDiff` writes their bit. -/
def rekey (l : List (BufferKey × BufferBinding)) : List (BufferKey × BufferBinding) :=
  l.map fun x => (x.2._key, x.2)

/-- The targets the switch of `makeDiff` handles: the four buffer categories. -/
def isBufferRole (t : Nat) : Prop :=
  t = GL_SHADER_STORAGE_BUFFER ∨ t = GL_UNIFORM_BUFFER ∨
  t = GL_ATOMIC_COUNTER_BUFFER ∨ t = GL_TRANSFORM_FEEDBACK_BUFFER

instance (t : Nat) : Decidable (isBufferRole t) := by
  unfold isBufferRole
  infer_instance

/-- The bitset of the category selected by a role. -/
def StateDiff_t.bitsetOf (d : StateDiff_t) (target : Nat) : Bitset :=
  if target = GL_SHADER_STORAGE_BUFFER then d.ssbos
  else if target = GL_UNIFORM_BUFFER then d.ubos
  else if target = GL_ATOMIC_COUNTER_BUFFER then d.acbos
  else if target = GL_TRANSFORM_FEEDBACK_BUFFER then d.tfbos
  else Bitset.zero 0

/-- The capacity of the bitset of the category selected by a role. -/
def Limits.capacity (lim : Limits) (target : Nat) : Nat :=
  if target = GL_SHADER_STORAGE_BUFFER then lim.maxSSBOs
  else if target = GL_UNIFORM_BUFFER then lim.maxUBOs
  else if target = GL_ATOMIC_COUNTER_BUFFER then lim.maxACBOs
  else if target = GL_TRANSFORM_FEEDBACK_BUFFER then lim.maxTFBOs
  else 0

/-- The bit at `pos`, a position outside the bitset read as clear. -/
def Bitset.isSet (b : Bitset) (pos : Nat) : Bool := b.bits.getD pos false

/-- The diff with the bit `L` of the bitset of role `R` overwritten by `v`. -/
def StateDiff_t.setBuf (d : StateDiff_t) (R L : Nat) (v : Bool) : StateDiff_t :=
  if R = GL_SHADER_STORAGE_BUFFER then { d with ssbos := ⟨List.set d.ssbos.bits L v⟩ }
  else if R = GL_UNIFORM_BUFFER then { d with ubos := ⟨List.set d.ubos.bits L v⟩ }
  else if R = GL_ATOMIC_COUNTER_BUFFER then { d with acbos := ⟨List.set d.acbos.bits L v⟩ }
  else if R = GL_TRANSFORM_FEEDBACK_BUFFER then { d with tfbos := ⟨List.set d.tfbos.bits L v⟩ }
  else d

/-- The value a buffer loop of `makeDiff` writes for the record `e`. -/
def diffValue (h : Heap) (forced : Bool) (other : BindingState) (e : BufferBinding) : Bool :=
  forced || changed h e || (other.getBufferBinding e._key).differs e

/-- The record of a buffer role is written inside its bitset. -/
def RecInRange (d : StateDiff_t) (e : BufferBinding) : Prop :=
  isBufferRole e.target → e.location < (d.bitsetOf e.target).size

/-- Every record is stored under its own `_key`. -/
def BindingState.Keyed (s : BindingState) : Prop :=
  ∀ x ∈ s.buffers, x.1 = x.2._key

/-- A well-formed state: both maps have pairwise distinct keys, and every
buffer record is stored under its own `_key`. -/
def BindingState.WF (s : BindingState) : Prop :=
  (mapKeys s.buffers).Nodup ∧ (mapKeys s.textures).Nodup ∧ s.Keyed

instance (s : BindingState) : Decidable s.WF := by
  unfold BindingState.WF BindingState.Keyed
  infer_instance

/-- The locations of the buffer records of the four roles and the texture
units are below the capacity of their bitset. -/
def BindingState.InRange (lim : Limits) (s : BindingState) : Prop :=
  (∀ x ∈ s.buffers, isBufferRole x.2.target → x.2.location < lim.capacity x.2.target) ∧
  ∀ x ∈ s.textures, x.1 < lim.maxTextures

instance (lim : Limits) (s : BindingState) : Decidable (s.InRange lim) := by
  unfold BindingState.InRange
  infer_instance

/-- The slot `key` is changed between the states `A` and `B`: its two
records (an absent slot read as the default record) differ, or one of them
has drifted from the live extent of its buffer. -/
def slotChanged (h : Heap) (A B : BindingState) (key : BufferKey) : Prop :=
  (A.getBufferBinding key).differs (B.getBufferBinding key) = true ∨
  changed h (A.getBufferBinding key) = true ∨ changed h (B.getBufferBinding key) = true

instance (h : Heap) (A B : BindingState) (key : BufferKey) : Decidable (slotChanged h A B key) := by
  unfold slotChanged
  infer_instance

/-- The bit a buffer loop of `makeDiff` over `l` leaves at position `L` of the
bitset of role `R`: the value of the last record written there, or the bit
`dflt` found before the loop. -/
def bufBit (h : Heap) (forced : Bool) (other : BindingState)
    (l : List (BufferKey × BufferBinding)) (R L : Nat) (dflt : Bool) : Bool :=
  match mapFindLast (rekey l) (R, L) with
  | some e => diffValue h forced other e
  | none => dflt

/-- The bit a texture loop of `makeDiff` over `l` leaves at position `u`. -/
def texBit (forced : Bool) (other : BindingState) (l : List (Nat × Option Nat))
    (u : Nat) (dflt : Bool) : Bool :=
  match mapFindLast l u with
  | some t => forced || other.getTexture u != t
  | none => dflt

/-- What a native call addresses: a buffer binding point or a texture unit. -/
inductive Slot where
  | buffer (target location : Nat)
  | texture (unit : Nat)
deriving DecidableEq

/-- The binding point a native call addresses. -/
def GLCall.slot : GLCall → Slot
  | GLCall.bufferBind _ target location => Slot.buffer target location
  | GLCall.glBindBufferBase target location _ => Slot.buffer target location
  | GLCall.glBindTextureUnit unit _ => Slot.texture unit

/-- The calls of a trace that address `sl`, in order. -/
def callsAt (calls : List GLCall) (sl : Slot) : List GLCall :=
  calls.filter fun c => decide (c.slot = sl)

/-- What `bindOrRemoveBuffer` leaves at the slot it is called for: a record
with a buffer is re-recorded with the live extent, an emptied record is
erased, an absent slot stays absent. -/
def slotAfter (h : Heap) : Option BufferBinding → Option BufferBinding
  | some e =>
    match e.buffer with
    | some b => some { e with offset := h.getOffset b, size := h.getSize b }
    | none => none
  | none => none

/-- The native calls `bindOrRemoveBuffer(bindings, target, location)` issues,
by what it finds at the slot. -/
def slotCalls : Option BufferBinding → Nat → Nat → List GLCall
  | some e, target, location =>
    match e.buffer with
    | some b => [GLCall.bufferBind b target location]
    | none => [GLCall.glBindBufferBase target location 0]
  | none, _, _ => []

/-- What the texture loop of `apply` leaves at a unit whose bit it finds set. -/
def texAfter : Option (Option Nat) → Option (Option Nat)
  | some (some t) => some (some t)
  | some none => none
  | none => none

/-- The native calls the texture loop of `apply` issues for a unit whose bit
it finds set. -/
def texCalls (h : Heap) : Option (Option Nat) → Nat → List GLCall
  | some (some t), i => [GLCall.glBindTextureUnit i (h.getGLId t)]
  | some none, i => [GLCall.glBindTextureUnit i 0]
  | none, _ => []

/-- The effect of one iteration of a buffer loop of `apply`. -/
def applyBufferIter (h : Heap) (bits : Bitset) (target : Nat)
    (st : List (BufferKey × BufferBinding) × List GLCall) (i : Nat) :
    List (BufferKey × BufferBinding) × List GLCall :=
  if bits.isSet i then bindOrRemoveBuffer h st target i else st

/-- The effect of one iteration of the texture loop of `apply`. -/
def applyTextureIter (h : Heap) (bits : Bitset)
    (st : List (Nat × Option Nat) × List GLCall) (i : Nat) :
    List (Nat × Option Nat) × List GLCall :=
  if bits.isSet i then applyTextureStep h st i else st

/-- The bit of the buffer slot `(R, L)` is set in the diff. -/
def bufSet (d : StateDiff_t) (R L : Nat) : Prop :=
  isBufferRole R ∧ (d.bitsetOf R).test L = some true

instance (d : StateDiff_t) (R L : Nat) : Decidable (bufSet d R L) := by
  unfold bufSet
  infer_instance

/-- The bit of the texture unit `u` is set in the diff, at a position the
texture loop of `apply` visits. -/
def texSet (lim : Limits) (d : StateDiff_t) (u : Nat) : Prop :=
  u < lim.maxTextureBindings ∧ d.textures.test u = some true

instance (lim : Limits) (d : StateDiff_t) (u : Nat) : Decidable (texSet lim d u) := by
  unfold texSet
  infer_instance

/-- The loops of `apply` over the diff `d` end and stay inside the bitsets:
the four buffer bitsets have at most 255 positions (the 8-bit counter can
reach their size), and `getMaxTextureBindings()` is at most 255 and at most
the size of the texture bitset. -/
def ApplyReady (lim : Limits) (d : StateDiff_t) : Prop :=
  d.ssbos.size ≤ 255 ∧ d.ubos.size ≤ 255 ∧ d.acbos.size ≤ 255 ∧ d.tfbos.size ≤ 255 ∧
  lim.maxTextureBindings ≤ 255 ∧ lim.maxTextureBindings ≤ d.textures.size

instance (lim : Limits) (d : StateDiff_t) : Decidable (ApplyReady lim d) := by
  unfold ApplyReady
  infer_instance

/-- The capacities let the loops of `apply` end and stay inside the bitsets:
every buffer bitset has at most 255 positions, and `getMaxTextureBindings()`
is at most 255 and at most the size of the texture bitset. -/
def Limits.Ready (lim : Limits) : Prop :=
  lim.maxSSBOs ≤ 255 ∧ lim.maxUBOs ≤ 255 ∧ lim.maxACBOs ≤ 255 ∧ lim.maxTFBOs ≤ 255 ∧
  lim.maxTextureBindings ≤ 255 ∧ lim.maxTextureBindings ≤ lim.maxTextures

instance (lim : Limits) : Decidable lim.Ready := by
  unfold Limits.Ready
  infer_instance

/-- The bit of the binding point `sl` is set in the diff, at a position the
loops of `apply` visit. -/
def slotSet (lim : Limits) (d : StateDiff_t) : Slot → Prop
  | Slot.buffer R L => bufSet d R L
  | Slot.texture u => texSet lim d u

/-! ## Concrete inputs -/

/-- A heap in which every buffer has live offset 0 and live size 16. -/
def exampleHeap : Heap := ⟨fun _ => 0, fun _ => 16, fun t => t + 100⟩

/-- Capacities of 8 for every bitset and for `getMaxTextureBindings()`. -/
def exampleLimits : Limits := ⟨8, 8, 8, 8, 8, 8⟩

/-- The empty state. -/
def emptyState : BindingState := ⟨[], []⟩

/-- An applied state: buffer 1 at uniform binding 2, recorded with size 8
(the live size is 16), and texture 5 at unit 0. -/
def exampleApplied : BindingState :=
  ⟨[((GL_UNIFORM_BUFFER, 2), ⟨some 1, 0, 8, GL_UNIFORM_BUFFER, 2⟩)], [(0, some 5)]⟩

/-- A target state: the same uniform binding, buffer 3 at storage binding 1
with its live extent, texture 5 at unit 0 and texture 6 at unit 1. -/
def exampleTarget : BindingState :=
  ⟨[((GL_UNIFORM_BUFFER, 2), ⟨some 1, 0, 8, GL_UNIFORM_BUFFER, 2⟩),
    ((GL_SHADER_STORAGE_BUFFER, 1), ⟨some 3, 0, 16, GL_SHADER_STORAGE_BUFFER, 1⟩)],
   [(0, some 5), (1, some 6)]⟩

/-- A state with a bound and an explicitly emptied uniform binding, a bound
and an explicitly emptied texture unit. -/
def removalState : BindingState :=
  ⟨[((GL_UNIFORM_BUFFER, 2), ⟨some 1, 0, 8, GL_UNIFORM_BUFFER, 2⟩),
    ((GL_UNIFORM_BUFFER, 1), ⟨none, 0, 0, GL_UNIFORM_BUFFER, 1⟩)],
   [(0, some 5), (1, none)]⟩

/-- A diff of capacity 8 with the storage bit 1, the uniform bits 1 and 2 and
the texture bits 0 and 1 set. -/
def exampleDiff : StateDiff_t :=
  ⟨⟨[false, true, false, false, false, false, false, false]⟩,
   ⟨[false, true, true, false, false, false, false, false]⟩,
   Bitset.zero 8, Bitset.zero 8,
   ⟨[true, true, false, false, false, false, false, false]⟩⟩

/-- A target whose only slot is buffer 1 at uniform binding 2, recorded with
size 8 while the live size is 16. -/
def driftedTarget : BindingState :=
  ⟨[((GL_UNIFORM_BUFFER, 2), ⟨some 1, 0, 8, GL_UNIFORM_BUFFER, 2⟩)], []⟩

/-- A state whose only slot is texture unit 0, explicitly emptied. -/
def nullTextureState : BindingState := ⟨[], [(0, none)]⟩

/-- A state whose only slot is uniform binding 1, explicitly emptied. -/
def nullBufferState : BindingState :=
  ⟨[((GL_UNIFORM_BUFFER, 1), ⟨none, 0, 0, GL_UNIFORM_BUFFER, 1⟩)], []⟩

/-! ## The loops of `apply`, with the positions they test -/

/-- A buffer loop of `apply` as `applyBufferLoop`, returning in addition the
positions at which it called `test`, in order. -/
def applyBufferLoopTraced (h : Heap) (bits : Bitset) (target : Nat) :
    Nat → Nat → List (BufferKey × BufferBinding) × List GLCall →
    Option ((List (BufferKey × BufferBinding) × List GLCall) × List Nat)
  | 0, _, _ => none
  | fuel + 1, i, st =>
    if i < bits.size then
      match bits.test i with
      | none => none
      | some true =>
        (applyBufferLoopTraced h bits target fuel ((i + 1) % 256)
          (bindOrRemoveBuffer h st target i)).map fun r => (r.1, i :: r.2)
      | some false =>
        (applyBufferLoopTraced h bits target fuel ((i + 1) % 256) st).map
          fun r => (r.1, i :: r.2)
    else some (st, [])

/-- The texture loop of `apply` as `applyTextureLoop`, returning in addition
the positions at which it called `test`, in order. -/
def applyTextureLoopTraced (h : Heap) (bits : Bitset) (maxTextureBindings : Nat) :
    Nat → Nat → List (Nat × Option Nat) × List GLCall →
    Option ((List (Nat × Option Nat) × List GLCall) × List Nat)
  | 0, _, _ => none
  | fuel + 1, i, st =>
    if i < maxTextureBindings then
      match bits.test i with
      | none => none
      | some true =>
        (applyTextureLoopTraced h bits maxTextureBindings fuel ((i + 1) % 256)
          (applyTextureStep h st i)).map fun r => (r.1, i :: r.2)
      | some false =>
        (applyTextureLoopTraced h bits maxTextureBindings fuel ((i + 1) % 256) st).map
          fun r => (r.1, i :: r.2)
    else some (st, [])

/-- A bitset of 256 positions with position 0 set. -/
def wideBitset : Bitset := ⟨true :: List.replicate 255 false⟩

/-! ## The hierarchical binding state of `State/BindingState.h` -/

/-- A `Binding`: the flag `dirty` declared by `HAS_DIRTY_FLAG` and the three
vectors of references, indexed by array element. -/
structure State.Binding where
  dirty : Bool
  buffers : List (Option Nat)
  textures : List (Option Nat)
  views : List (Option Nat)
deriving DecidableEq

/-- A `BindingSet`: the flag `dirty` and the map `bindings` from binding index
to `Binding`. -/
structure State.BindingSet where
  dirty : Bool
  bindings : List (Nat × State.Binding)
deriving DecidableEq

/-- The hierarchical `BindingState`: the flag `dirty` and the map
`bindingSets` from set index to `BindingSet`. -/
structure State.BindingState where
  dirty : Bool
  bindingSets : List (Nat × State.BindingSet)
deriving DecidableEq

/-- The method `BindingSet::getBinding`: `bindings.at(binding)`; `none` is the
`std::out_of_range` thrown by `at`. -/
def State.BindingSet.getBinding (bs : State.BindingSet) (binding : Nat) :
    Option State.Binding :=
  mapFind bs.bindings binding

/-- The method `BindingSet::hasBinding`:
`bindings.find(binding) != bindings.end()`. -/
def State.BindingSet.hasBinding (bs : State.BindingSet) (binding : Nat) : Bool :=
  (mapFind bs.bindings binding).isSome

/-- The method `BindingState::hasBindingSet`: its result and the state after
the call. -/
def State.BindingState.hasBindingSet (s : State.BindingState) (set : Nat) :
    Bool × State.BindingState :=
  ((mapFind s.bindingSets set).isSome, s)

/-- The method `BindingState::getBindingSet`: `bindingSets.at(set)`; its
result (`none` is the `std::out_of_range` thrown by `at`) and the state after
the call. -/
def State.BindingState.getBindingSet (s : State.BindingState) (set : Nat) :
    Option State.BindingSet × State.BindingState :=
  (mapFind s.bindingSets set, s)

/-- The method `BindingState::getBinding`:
`bindingSets.at(set).getBinding(binding)`; its result (`none` when either
`at` throws) and the state after the call. -/
def State.BindingState.getBinding (s : State.BindingState) (set binding : Nat) :
    Option State.Binding × State.BindingState :=
  (match mapFind s.bindingSets set with
   | some bs => bs.getBinding binding
   | none => none, s)

/-- The method `BindingState::hasBinding`:
`hasBindingSet(set) && bindingSets.at(set).hasBinding(binding)`, the second
operand evaluated only when the first holds; its result (`none` if `at`
threw) and the state after the call. -/
def State.BindingState.hasBinding (s : State.BindingState) (set binding : Nat) :
    Option Bool × State.BindingState :=
  (if (s.hasBindingSet set).1 then
     match mapFind s.bindingSets set with
     | some bs => some (bs.hasBinding binding)
     | none => none
   else some false, s)

/-- The method `BindingState::reset`: `bindingSets.clear(); dirty = true;`. -/
def State.BindingState.reset (s : State.BindingState) : State.BindingState :=
  { s with bindingSets := [], dirty := true }

/-- The three kinds of resource a `Binding` holds, one per `bind` method. -/
inductive State.ResourceKind where
  | buffer
  | texture
  | inputImage
deriving DecidableEq

/-- The insertion of `v` under `k`: the entry under `k` is replaced, or a new
entry is created when `k` is absent. -/
def mapPut {κ α : Type} [DecidableEq κ] (l : List (κ × α)) (k : κ) (v : α) : List (κ × α) :=
  if (mapFind l k).isSome then mapAssign l k v else l ++ [(k, v)]

/-- Modelled from the spec: the body shared by `Binding::bindBuffer`,
`bindTexture` and `bindInputImage` on one vector of references (their
definitions are not part of the sources): it "replaces the resource at
`arrayElement`; grows backing storage if the element is beyond current
capacity; returns whether the new state differs from the previous". -/
def State.bindRef (refs : List (Option Nat)) (r : Option Nat) (arrayElement : Nat) :
    Bool × List (Option Nat) :=
  let grown :=
    if arrayElement < refs.length then refs
    else refs ++ List.replicate (arrayElement + 1 - refs.length) none
  let next := List.set grown arrayElement r
  (decide (next ≠ refs), next)

/-- Modelled from the spec: `Binding::bindBuffer` / `bindTexture` /
`bindInputImage` (selected by `kind`), not part of the sources: the vector of
that kind is updated by `bindRef`, and the binding is marked dirty when the
call changed it ("no-op rebinds ... return false and do not mark dirty"). -/
def State.Binding.bind (b : State.Binding) (kind : State.ResourceKind) (r : Option Nat)
    (arrayElement : Nat) : Bool × State.Binding :=
  match kind with
  | State.ResourceKind.buffer =>
    let res := State.bindRef b.buffers r arrayElement
    (res.1, { b with buffers := res.2, dirty := b.dirty || res.1 })
  | State.ResourceKind.texture =>
    let res := State.bindRef b.textures r arrayElement
    (res.1, { b with textures := res.2, dirty := b.dirty || res.1 })
  | State.ResourceKind.inputImage =>
    let res := State.bindRef b.views r arrayElement
    (res.1, { b with views := res.2, dirty := b.dirty || res.1 })

/-- Modelled from the spec: `BindingSet::bindBuffer` / `bindTexture` /
`bindInputImage`, not part of the sources: it "routes to the Binding at
`binding`, creating it if absent; propagates the returned changed flag
upward, setting dirty at every level on the path". `dirty0` is the initial
value `HAS_DIRTY_FLAG` gives the flag of a created binding. -/
def State.BindingSet.bind (dirty0 : Bool) (bs : State.BindingSet)
    (kind : State.ResourceKind) (r : Option Nat) (binding arrayElement : Nat) :
    Bool × State.BindingSet :=
  let b : State.Binding :=
    match mapFind bs.bindings binding with
    | some b => b
    | none => ⟨dirty0, [], [], []⟩
  let res := b.bind kind r arrayElement
  (res.1, { bindings := mapPut bs.bindings binding res.2, dirty := bs.dirty || res.1 })

/-- Modelled from the spec: `BindingState::bindBuffer` / `bindTexture` /
`bindInputImage`, not part of the sources: it routes to the binding set at
`set`, creating it if absent, and propagates the changed flag upward. -/
def State.BindingState.bind (dirty0 : Bool) (s : State.BindingState)
    (kind : State.ResourceKind) (r : Option Nat) (set binding arrayElement : Nat) :
    Bool × State.BindingState :=
  let bs : State.BindingSet :=
    match mapFind s.bindingSets set with
    | some bs => bs
    | none => ⟨dirty0, []⟩
  let res := bs.bind dirty0 kind r binding arrayElement
  (res.1, { bindingSets := mapPut s.bindingSets set res.2, dirty := s.dirty || res.1 })

/-- The call `bindBuffer(buffer, set, binding, arrayElement)`. -/
def State.BindingState.bindBuffer (dirty0 : Bool) (s : State.BindingState)
    (buffer : Option Nat) (set binding arrayElement : Nat) : Bool × State.BindingState :=
  s.bind dirty0 State.ResourceKind.buffer buffer set binding arrayElement

/-- The call `bindTexture(texture, set, binding, arrayElement)`. -/
def State.BindingState.bindTexture (dirty0 : Bool) (s : State.BindingState)
    (texture : Option Nat) (set binding arrayElement : Nat) : Bool × State.BindingState :=
  s.bind dirty0 State.ResourceKind.texture texture set binding arrayElement

/-- The call `bindInputImage(view, set, binding, arrayElement)`. -/
def State.BindingState.bindInputImage (dirty0 : Bool) (s : State.BindingState)
    (view : Option Nat) (set binding arrayElement : Nat) : Bool × State.BindingState :=
  s.bind dirty0 State.ResourceKind.inputImage view set binding arrayElement

/-- A hierarchical state with buffer 4 bound at set 0, binding 2, element 0. -/
def State.exampleState : State.BindingState :=
  ⟨true, [(0, ⟨true, [(2, ⟨true, [some 4], [], []⟩)]⟩)]⟩

/-! ## The indexed setters of `RenderingContext/PipelineState.cpp` -/

/-- The warnings of the indexed setters, by their message and index. -/
inductive Warning where
  | invalidViewportIndex (index : Nat)
  | invalidScissorIndex (index : Nat)
  | invalidAttachmentIndex (index : Nat)
deriving DecidableEq

/-- How a call of an indexed setter ends: `WARN_AND_RETURN_IF` warned and
returned the state as it was; or the write was done; or the write
`v[index] = value` was reached with `index` outside the vector, which is
undefined behaviour. -/
inductive SetterResult (σ : Type) where
  | warned (w : Warning) (state : σ)
  | written (state : σ)
  | outOfRange
deriving DecidableEq

/-- The `ViewportState`: the vectors of viewports and of scissors, their
elements taken as opaque values. -/
structure ViewportState where
  viewports : List Nat
  scissors : List Nat
deriving DecidableEq

/-- The `ColorBlendState`: the vector of attachment states, its elements
taken as opaque values. -/
structure ColorBlendState where
  attachments : List Nat
deriving DecidableEq

/-- The write `v[index] = value` on a `std::vector`; `none` when `index` is
not a position of `v`. -/
def vectorWrite (v : List Nat) (index value : Nat) : Option (List Nat) :=
  if index < v.length then some (List.set v index value) else none

/-- The method `ViewportState::setViewport(value, index)`. The macro
`WARN_AND_RETURN_IF(condition, message, result)` of the external
`Util/Macros.h` warns and returns `result` when `condition` holds; the
condition written here is `viewports.size() > index`. -/
def ViewportState.setViewport (s : ViewportState) (value index : Nat) :
    SetterResult ViewportState :=
  if s.viewports.length > index then
    SetterResult.warned (Warning.invalidViewportIndex index) s
  else
    match vectorWrite s.viewports index value with
    | some v => SetterResult.written { s with viewports := v }
    | none => SetterResult.outOfRange

/-- The method `ViewportState::setScissor(value, index)`, guarded by
`WARN_AND_RETURN_IF(scissors.size() > index, ...)`. -/
def ViewportState.setScissor (s : ViewportState) (value index : Nat) :
    SetterResult ViewportState :=
  if s.scissors.length > index then
    SetterResult.warned (Warning.invalidScissorIndex index) s
  else
    match vectorWrite s.scissors index value with
    | some v => SetterResult.written { s with scissors := v }
    | none => SetterResult.outOfRange

/-- The method `ColorBlendState::setAttachment(value, index)`, guarded by
`WARN_AND_RETURN_IF(attachments.size() > index, ...)`. -/
def ColorBlendState.setAttachment (s : ColorBlendState) (value index : Nat) :
    SetterResult ColorBlendState :=
  if s.attachments.length > index then
    SetterResult.warned (Warning.invalidAttachmentIndex index) s
  else
    match vectorWrite s.attachments index value with
    | some v => SetterResult.written { s with attachments := v }
    | none => SetterResult.outOfRange

/-! ## Facts about the association lists -/

section MapLemmas

variable {κ α : Type} [DecidableEq κ]

theorem mem_of_mapFind {l : List (κ × α)} {k : κ} {v : α} (hf : mapFind l k = some v) :
    (k, v) ∈ l := by
  induction l with
  | nil => simp [mapFind] at hf
  | cons x rest ih =>
    obtain ⟨k', v'⟩ := x
    by_cases hk : k' = k
    · simp [mapFind, hk] at hf
      simp [hk, hf]
    · simp [mapFind, hk] at hf
      exact List.mem_cons_of_mem _ (ih hf)

theorem mapFind_eq_none_iff {l : List (κ × α)} {k : κ} :
    mapFind l k = none ↔ k ∉ mapKeys l := by
  induction l with
  | nil => simp [mapFind, mapKeys]
  | cons x rest ih =>
    obtain ⟨k', v'⟩ := x
    by_cases hk : k' = k
    · simp [mapFind, mapKeys, hk]
    · have hk2 : ¬ k = k' := fun e => hk e.symm
      simp only [mapKeys] at ih
      simp [mapFind, mapKeys, hk, hk2, ih]

theorem mapFind_of_mem {l : List (κ × α)} (hnd : (mapKeys l).Nodup) {k : κ} {v : α}
    (hm : (k, v) ∈ l) : mapFind l k = some v := by
  induction l with
  | nil => simp at hm
  | cons x rest ih =>
    obtain ⟨k', v'⟩ := x
    simp only [mapKeys, List.map_cons, List.nodup_cons] at hnd
    rcases List.mem_cons.mp hm with heq | hin
    · cases heq
      simp [mapFind]
    · have hne : k' ≠ k := by
        intro e
        subst e
        exact hnd.1 (List.mem_map.mpr ⟨(k', v), hin, rfl⟩)
      simp only [mapFind, hne, if_false]
      exact ih hnd.2 hin

theorem mapKeys_mapAssign (l : List (κ × α)) (k : κ) (v : α) :
    mapKeys (mapAssign l k v) = mapKeys l := by
  induction l with
  | nil => rfl
  | cons x rest ih =>
    obtain ⟨k', v'⟩ := x
    simp only [mapKeys] at ih
    by_cases hk : k' = k <;> simp [mapAssign, mapKeys, hk, ih]

theorem mapFind_mapAssign (l : List (κ × α)) (k : κ) (v : α) (k2 : κ) :
    mapFind (mapAssign l k v) k2 =
      if k2 = k then (mapFind l k).map (fun _ => v) else mapFind l k2 := by
  induction l with
  | nil => simp [mapAssign, mapFind]
  | cons x rest ih =>
    obtain ⟨k', v'⟩ := x
    by_cases hk : k' = k
    · subst hk
      by_cases h2 : k2 = k'
      · subst h2
        simp [mapAssign, mapFind]
      · have h3 : ¬ k' = k2 := fun e => h2 e.symm
        simp [mapAssign, mapFind, h2, h3]
    · by_cases h2 : k2 = k
      · subst h2
        simp [mapAssign, mapFind, hk, ih]
      · by_cases h3 : k' = k2
        · simp [mapAssign, mapFind, hk, h2, h3]
        · simp [mapAssign, mapFind, hk, h2, h3, ih]

theorem mem_mapAssign {l : List (κ × α)} {k : κ} {v : α} {x : κ × α}
    (hx : x ∈ mapAssign l k v) : x ∈ l ∨ (x = (k, v) ∧ k ∈ mapKeys l) := by
  induction l with
  | nil => simp [mapAssign] at hx
  | cons y rest ih =>
    obtain ⟨k', v'⟩ := y
    by_cases hk : k' = k
    · subst hk
      simp only [mapAssign, if_true, List.mem_cons] at hx
      rcases hx with hx | hx
      · exact Or.inr ⟨hx, by simp [mapKeys]⟩
      · exact Or.inl (List.mem_cons_of_mem _ hx)
    · simp only [mapAssign, hk, if_false, List.mem_cons] at hx
      rcases hx with hx | hx
      · exact Or.inl (by simp [hx])
      · rcases ih hx with h1 | ⟨h1, h2⟩
        · exact Or.inl (List.mem_cons_of_mem _ h1)
        · refine Or.inr ⟨h1, ?_⟩
          simp only [mapKeys] at h2
          simp [mapKeys, h2]

theorem mem_mapErase {l : List (κ × α)} {k : κ} {x : κ × α} (hx : x ∈ mapErase l k) :
    x ∈ l := by
  induction l with
  | nil => simp [mapErase] at hx
  | cons y rest ih =>
    obtain ⟨k', v'⟩ := y
    by_cases hk : k' = k
    · simp only [mapErase, hk, if_true] at hx
      exact List.mem_cons_of_mem _ hx
    · simp only [mapErase, hk, if_false, List.mem_cons] at hx
      rcases hx with hx | hx
      · simp [hx]
      · exact List.mem_cons_of_mem _ (ih hx)

theorem nodup_mapErase {l : List (κ × α)} (k : κ) (hnd : (mapKeys l).Nodup) :
    (mapKeys (mapErase l k)).Nodup := by
  induction l with
  | nil => simp [mapErase, mapKeys]
  | cons y rest ih =>
    obtain ⟨k', v'⟩ := y
    simp only [mapKeys, List.map_cons, List.nodup_cons] at hnd
    by_cases hk : k' = k
    · simp only [mapErase, hk, if_true]
      exact hnd.2
    · simp only [mapErase, hk, if_false, mapKeys, List.map_cons, List.nodup_cons]
      refine ⟨?_, ih hnd.2⟩
      intro hin
      obtain ⟨y, hy, hy1⟩ := List.mem_map.mp hin
      exact hnd.1 (List.mem_map.mpr ⟨y, mem_mapErase hy, hy1⟩)

theorem mapFind_mapErase {l : List (κ × α)} (hnd : (mapKeys l).Nodup) (k k2 : κ) :
    mapFind (mapErase l k) k2 = if k2 = k then none else mapFind l k2 := by
  induction l with
  | nil => simp [mapErase, mapFind]
  | cons y rest ih =>
    obtain ⟨k', v'⟩ := y
    simp only [mapKeys, List.map_cons, List.nodup_cons] at hnd
    by_cases hk : k' = k
    · subst hk
      by_cases h2 : k2 = k'
      · subst h2
        simp only [mapErase, if_true]
        exact mapFind_eq_none_iff.mpr hnd.1
      · have h3 : ¬ k' = k2 := fun e => h2 e.symm
        simp [mapErase, mapFind, h2, h3]
    · by_cases h2 : k2 = k
      · subst h2
        simp [mapErase, mapFind, hk, ih hnd.2]
      · by_cases h3 : k' = k2
        · simp [mapErase, mapFind, hk, h2, h3]
        · simp [mapErase, mapFind, hk, h2, h3, ih hnd.2]

end MapLemmas

/-! ## Facts about the bitsets -/

theorem gl_roles_distinct :
    GL_SHADER_STORAGE_BUFFER ≠ GL_UNIFORM_BUFFER ∧
    GL_SHADER_STORAGE_BUFFER ≠ GL_ATOMIC_COUNTER_BUFFER ∧
    GL_SHADER_STORAGE_BUFFER ≠ GL_TRANSFORM_FEEDBACK_BUFFER ∧
    GL_UNIFORM_BUFFER ≠ GL_ATOMIC_COUNTER_BUFFER ∧
    GL_UNIFORM_BUFFER ≠ GL_TRANSFORM_FEEDBACK_BUFFER ∧
    GL_ATOMIC_COUNTER_BUFFER ≠ GL_TRANSFORM_FEEDBACK_BUFFER := by
  decide

theorem Bitset.test_eq_some_true (b : Bitset) (i : Nat) :
    b.test i = some true ↔ b.isSet i = true := by
  unfold Bitset.test Bitset.isSet
  rw [List.getD_eq_getElem?_getD]
  cases b.bits[i]? <;> simp

theorem Bitset.test_of_lt (b : Bitset) (i : Nat) (hi : i < b.size) :
    b.test i = some (b.isSet i) := by
  unfold Bitset.size at hi
  unfold Bitset.test Bitset.isSet
  rw [List.getD_eq_getElem?_getD, List.getElem?_eq_getElem hi]
  rfl

theorem Bitset.isSet_zero (n i : Nat) : (Bitset.zero n).isSet i = false := by
  unfold Bitset.isSet Bitset.zero
  rw [List.getD_eq_getElem?_getD, List.getElem?_replicate]
  split <;> rfl

theorem isSet_listSet (bits : List Bool) (L : Nat) (v : Bool) (i : Nat) (hL : L < bits.length) :
    (Bitset.mk (List.set bits L v)).isSet i = if i = L then v else (Bitset.mk bits).isSet i := by
  unfold Bitset.isSet
  simp only [List.getD_eq_getElem?_getD, List.getElem?_set]
  by_cases hi : L = i
  · subst hi
    simp [hL]
  · have hi2 : ¬ i = L := fun e => hi e.symm
    simp [hi, hi2]

theorem diffBufferStep_eq (h : Heap) (forced : Bool) (other : BindingState)
    (d : StateDiff_t) (e : BufferBinding) (hr : RecInRange d e) :
    diffBufferStep h forced other d e =
      some (d.setBuf e.target e.location (diffValue h forced other e)) := by
  obtain ⟨n1, n2, n3, n4, n5, n6⟩ := gl_roles_distinct
  unfold RecInRange isBufferRole StateDiff_t.bitsetOf Bitset.size at hr
  unfold diffBufferStep StateDiff_t.setBuf diffValue Bitset.set
  by_cases h1 : e.target = GL_SHADER_STORAGE_BUFFER
  · simp only [h1, if_true, true_or, true_implies] at hr
    simp [h1, hr]
  by_cases h2 : e.target = GL_UNIFORM_BUFFER
  · simp only [h2, if_true, true_or, or_true, true_implies, n1.symm, if_false] at hr
    simp [h2, hr, n1.symm]
  by_cases h3 : e.target = GL_ATOMIC_COUNTER_BUFFER
  · simp only [h3, if_true, true_or, or_true, true_implies, n2.symm, n4.symm, if_false] at hr
    simp [h3, hr, n2.symm, n4.symm]
  by_cases h4 : e.target = GL_TRANSFORM_FEEDBACK_BUFFER
  · simp only [h4, if_true, or_true, true_implies, n3.symm, n5.symm, n6.symm, if_false] at hr
    simp [h4, hr, n3.symm, n5.symm, n6.symm]
  simp [h1, h2, h3, h4]

theorem setBuf_textures (d : StateDiff_t) (R L : Nat) (v : Bool) :
    (d.setBuf R L v).textures = d.textures := by
  unfold StateDiff_t.setBuf
  split_ifs <;> rfl

theorem setBuf_size (d : StateDiff_t) (R L : Nat) (v : Bool) (R2 : Nat) :
    ((d.setBuf R L v).bitsetOf R2).size = (d.bitsetOf R2).size := by
  unfold StateDiff_t.setBuf StateDiff_t.bitsetOf Bitset.size
  split_ifs <;> simp_all

theorem setBuf_isSet (d : StateDiff_t) (R L : Nat) (v : Bool) (R2 L2 : Nat)
    (hR2 : isBufferRole R2) (hL : L < (d.bitsetOf R).size) :
    ((d.setBuf R L v).bitsetOf R2).isSet L2 =
      if R2 = R ∧ L2 = L then v else (d.bitsetOf R2).isSet L2 := by
  obtain ⟨n1, n2, n3, n4, n5, n6⟩ := gl_roles_distinct
  by_cases hRR : R2 = R
  · subst hRR
    unfold StateDiff_t.bitsetOf Bitset.size at hL
    unfold isBufferRole at hR2
    unfold StateDiff_t.setBuf StateDiff_t.bitsetOf
    rcases hR2 with e | e | e | e
    · simp only [e, if_true] at hL ⊢
      simp [isSet_listSet _ _ _ _ hL]
    · simp only [e, if_true, n1.symm, if_false] at hL ⊢
      simp [isSet_listSet _ _ _ _ hL]
    · simp only [e, if_true, n2.symm, n4.symm, if_false] at hL ⊢
      simp [isSet_listSet _ _ _ _ hL]
    · simp only [e, if_true, n3.symm, n5.symm, n6.symm, if_false] at hL ⊢
      simp [isSet_listSet _ _ _ _ hL]
  · simp only [hRR, false_and, if_false]
    unfold StateDiff_t.setBuf StateDiff_t.bitsetOf
    split_ifs <;> simp_all


theorem setBuf_bitsetOf_ne (d : StateDiff_t) (R L : Nat) (v : Bool) (R2 : Nat)
    (hRR : R2 ≠ R) : (d.setBuf R L v).bitsetOf R2 = d.bitsetOf R2 := by
  unfold StateDiff_t.setBuf StateDiff_t.bitsetOf
  split_ifs <;> simp_all

/-! ## Facts about `mapFindLast` -/

section MapLastLemmas

variable {κ α : Type} [DecidableEq κ]

theorem mapFindLast_eq_none_iff {l : List (κ × α)} {k : κ} :
    mapFindLast l k = none ↔ k ∉ mapKeys l := by
  induction l with
  | nil => simp [mapFindLast, mapKeys]
  | cons x rest ih =>
    obtain ⟨k', v'⟩ := x
    simp only [mapKeys] at ih
    cases hrest : mapFindLast rest k with
    | some w =>
      have hin : k ∈ List.map Prod.fst rest := by
        by_contra hc
        rw [ih.mpr hc] at hrest
        cases hrest
      simp [mapFindLast, hrest, mapKeys, hin]
    | none =>
      have hin : k ∉ List.map Prod.fst rest := ih.mp hrest
      by_cases hk : k' = k
      · simp [mapFindLast, hrest, mapKeys, hk]
      · have hk2 : ¬ k = k' := fun e => hk e.symm
        simp only [mapFindLast, hrest, mapKeys, hk, if_false, List.map_cons, List.mem_cons,
          hk2, false_or, true_iff]
        exact hin

theorem mapFindLast_eq_mapFind {l : List (κ × α)} (hnd : (mapKeys l).Nodup) (k : κ) :
    mapFindLast l k = mapFind l k := by
  induction l with
  | nil => rfl
  | cons x rest ih =>
    obtain ⟨k', v'⟩ := x
    simp only [mapKeys, List.map_cons, List.nodup_cons] at hnd
    by_cases hk : k' = k
    · subst hk
      have hnone : mapFindLast rest k' = none := mapFindLast_eq_none_iff.mpr hnd.1
      simp [mapFindLast, mapFind, hnone]
    · simp only [mapFindLast, mapFind, hk, if_false]
      rw [ih hnd.2]
      cases mapFind rest k <;> rfl

end MapLastLemmas

theorem rekey_eq_self {l : List (BufferKey × BufferBinding)}
    (hk : ∀ x ∈ l, x.1 = x.2._key) : rekey l = l := by
  unfold rekey
  conv_rhs => rw [← List.map_id l]
  apply List.map_congr_left
  intro x hx
  obtain ⟨k, e⟩ := x
  have := hk (k, e) hx
  simp only at this
  simp [this]

/-! ## The loops of `makeDiff` -/

theorem diffBuffers_spec (h : Heap) (forced : Bool) (other : BindingState)
    (l : List (BufferKey × BufferBinding)) (d : StateDiff_t)
    (hr : ∀ x ∈ l, RecInRange d x.2) :
    ∃ d', diffBuffers h forced other l d = some d' ∧ d'.textures = d.textures ∧
      (∀ R, (d'.bitsetOf R).size = (d.bitsetOf R).size) ∧
      ∀ R L, isBufferRole R →
        (d'.bitsetOf R).isSet L = bufBit h forced other l R L ((d.bitsetOf R).isSet L) := by
  induction l generalizing d with
  | nil =>
    exact ⟨d, rfl, rfl, fun _ => rfl, fun R L _ => by simp [bufBit, rekey, mapFindLast]⟩
  | cons x rest ih =>
    obtain ⟨k, e⟩ := x
    have he : RecInRange d e := hr (k, e) (List.mem_cons_self _ _)
    have hstep := diffBufferStep_eq h forced other d e he
    have hr1 : ∀ y ∈ rest, RecInRange (d.setBuf e.target e.location (diffValue h forced other e)) y.2 := by
      intro y hy hrole
      rw [setBuf_size]
      exact hr y (List.mem_cons_of_mem _ hy) hrole
    obtain ⟨d', hd', htex, hsize, hbits⟩ := ih _ hr1
    refine ⟨d', ?_, ?_, ?_, ?_⟩
    · simp only [diffBuffers, hstep]
      exact hd'
    · rw [htex, setBuf_textures]
    · intro R
      rw [hsize, setBuf_size]
    · intro R L hR
      rw [hbits R L hR]
      unfold bufBit
      have hrk : rekey ((k, e) :: rest) = (e._key, e) :: rekey rest := rfl
      rw [hrk]
      simp only [mapFindLast]
      cases hlast : mapFindLast (rekey rest) (R, L) with
      | some w => rfl
      | none =>
        simp only
        by_cases hkey : e._key = (R, L)
        · have ht : R = e.target := by
            have := congrArg Prod.fst hkey
            exact this.symm
          have hl : L = e.location := by
            have := congrArg Prod.snd hkey
            exact this.symm
          subst ht
          subst hl
          rw [setBuf_isSet _ _ _ _ _ _ hR (he hR)]
          simp [hkey]
        · simp only [hkey, if_false]
          by_cases hRR : R = e.target
          · subst hRR
            rw [setBuf_isSet _ _ _ _ _ _ hR (he hR)]
            have hl : ¬ L = e.location := by
              intro hl
              apply hkey
              rw [hl]
              rfl
            simp [hl]
          · rw [setBuf_bitsetOf_ne _ _ _ _ _ hRR]

theorem diffTextures_spec (forced : Bool) (other : BindingState)
    (l : List (Nat × Option Nat)) (d : StateDiff_t)
    (hr : ∀ x ∈ l, x.1 < d.textures.size) :
    ∃ d', diffTextures forced other l d = some d' ∧
      (∀ R, d'.bitsetOf R = d.bitsetOf R) ∧ d'.textures.size = d.textures.size ∧
      ∀ u, d'.textures.isSet u = texBit forced other l u (d.textures.isSet u) := by
  induction l generalizing d with
  | nil =>
    exact ⟨d, rfl, fun _ => rfl, rfl, fun u => by simp [texBit, mapFindLast]⟩
  | cons x rest ih =>
    obtain ⟨unit, tex⟩ := x
    have hu : unit < d.textures.bits.length := hr (unit, tex) (List.mem_cons_self _ _)
    have hr1 : ∀ y ∈ rest, y.1 <
        ({ d with textures := ⟨List.set d.textures.bits unit
          (forced || other.getTexture unit != tex)⟩ } : StateDiff_t).textures.size := by
      intro y hy
      have := hr y (List.mem_cons_of_mem _ hy)
      simpa [Bitset.size] using this
    obtain ⟨d', hd', hbuf, hsize, hbits⟩ := ih _ hr1
    refine ⟨d', ?_, ?_, ?_, ?_⟩
    · simp only [diffTextures, Bitset.set, hu, if_true]
      exact hd'
    · intro R
      rw [hbuf R]
      rfl
    · rw [hsize]
      simp [Bitset.size]
    · intro u
      rw [hbits u]
      unfold texBit
      simp only [mapFindLast]
      cases hlast : mapFindLast rest u with
      | some w => rfl
      | none =>
        simp only
        rw [isSet_listSet _ _ _ _ hu]
        by_cases hk : unit = u
        · subst hk
          simp
        · have hk2 : ¬ u = unit := fun e => hk e.symm
          simp [hk, hk2]


theorem init_size (lim : Limits) (R : Nat) :
    ((StateDiff_t.init lim).bitsetOf R).size = lim.capacity R := by
  unfold StateDiff_t.init StateDiff_t.bitsetOf Limits.capacity Bitset.size Bitset.zero
  split_ifs <;> simp

theorem init_isSet (lim : Limits) (R L : Nat) :
    ((StateDiff_t.init lim).bitsetOf R).isSet L = false := by
  unfold StateDiff_t.init StateDiff_t.bitsetOf
  split_ifs <;> exact Bitset.isSet_zero _ _

theorem makeDiff_spec (h : Heap) (lim : Limits) (A B : BindingState) (forced : Bool)
    (hAr : A.InRange lim) (hBr : B.InRange lim) :
    ∃ d, makeDiff h lim A B forced = some d ∧
      (∀ R, (d.bitsetOf R).size = lim.capacity R) ∧ d.textures.size = lim.maxTextures ∧
      (∀ R L, isBufferRole R → (d.bitsetOf R).isSet L =
        bufBit h forced A B.buffers R L (bufBit h forced B A.buffers R L false)) ∧
      (∀ u, d.textures.isSet u =
        texBit forced A B.textures u (texBit forced B A.textures u false)) := by
  have h0 : ∀ x ∈ A.buffers, RecInRange (StateDiff_t.init lim) x.2 := by
    intro x hx hrole
    rw [init_size]
    exact hAr.1 x hx hrole
  obtain ⟨d1, hd1, ht1, hs1, hb1⟩ := diffBuffers_spec h forced B A.buffers _ h0
  have h1 : ∀ x ∈ B.buffers, RecInRange d1 x.2 := by
    intro x hx hrole
    rw [hs1, init_size]
    exact hBr.1 x hx hrole
  obtain ⟨d2, hd2, ht2, hs2, hb2⟩ := diffBuffers_spec h forced A B.buffers _ h1
  have hts : d2.textures.size = lim.maxTextures := by
    rw [ht2, ht1]
    simp [StateDiff_t.init, Bitset.zero, Bitset.size]
  have h2 : ∀ x ∈ A.textures, x.1 < d2.textures.size := by
    intro x hx
    rw [hts]
    exact hAr.2 x hx
  obtain ⟨d3, hd3, hbuf3, hs3, hb3⟩ := diffTextures_spec forced B A.textures _ h2
  have h3 : ∀ x ∈ B.textures, x.1 < d3.textures.size := by
    intro x hx
    rw [hs3, hts]
    exact hBr.2 x hx
  obtain ⟨d4, hd4, hbuf4, hs4, hb4⟩ := diffTextures_spec forced A B.textures _ h3
  refine ⟨d4, ?_, ?_, ?_, ?_, ?_⟩
  · simp [makeDiff, hd1, hd2, hd3, hd4]
  · intro R
    rw [hbuf4, hbuf3, hs2, hs1, init_size]
  · rw [hs4, hs3, hts]
  · intro R L hR
    rw [hbuf4, hbuf3, hb2 R L hR, hb1 R L hR, init_isSet]
  · intro u
    rw [hb4, hb3, ht2, ht1]
    have : (StateDiff_t.init lim).textures.isSet u = false := Bitset.isSet_zero _ _
    rw [this]


/-! ## The diff of well-formed states -/

theorem bne_swap {α : Type} [BEq α] [LawfulBEq α] (a b : α) : (a != b) = (b != a) := by
  by_cases hab : a = b
  · subst hab
    rfl
  · have hba : ¬ b = a := fun e => hab e.symm
    rw [bne_iff_ne.mpr hab, bne_iff_ne.mpr hba]

theorem differs_comm (a b : BufferBinding) : a.differs b = b.differs a := by
  unfold BufferBinding.differs
  rw [bne_swap a.buffer, bne_swap a.offset, bne_swap a.size]

theorem changed_eq_of_not_differs (h : Heap) (a b : BufferBinding)
    (hd : a.differs b = false) : changed h a = changed h b := by
  unfold BufferBinding.differs at hd
  simp only [Bool.or_eq_false_iff, bne_eq_false_iff_eq] at hd
  obtain ⟨⟨hb, ho⟩, hs⟩ := hd
  unfold changed
  rw [hb, ho, hs]

theorem bufBit_wf (h : Heap) (A B : BindingState) (hA : A.WF) (hB : B.WF) (R L : Nat) :
    bufBit h false A B.buffers R L (bufBit h false B A.buffers R L false) =
      ((A.getBufferBinding (R, L)).differs (B.getBufferBinding (R, L)) ||
        changed h (A.getBufferBinding (R, L)) || changed h (B.getBufferBinding (R, L))) := by
  unfold bufBit
  rw [rekey_eq_self hA.2.2, rekey_eq_self hB.2.2, mapFindLast_eq_mapFind hA.1,
    mapFindLast_eq_mapFind hB.1]
  cases hfB : mapFind B.buffers (R, L) with
  | some eB =>
    have hkey : eB._key = (R, L) := (hB.2.2 _ (mem_of_mapFind hfB)).symm
    have hgB : B.getBufferBinding (R, L) = eB := by simp [BindingState.getBufferBinding, hfB]
    simp only [diffValue, hkey, hgB, Bool.false_or]
    cases hdf : (A.getBufferBinding (R, L)).differs eB with
    | true => simp
    | false =>
      rw [changed_eq_of_not_differs h _ _ hdf]
      simp
  | none =>
    have hgB : B.getBufferBinding (R, L) = BufferBinding.empty := by
      simp [BindingState.getBufferBinding, hfB]
    cases hfA : mapFind A.buffers (R, L) with
    | some eA =>
      have hkey : eA._key = (R, L) := (hA.2.2 _ (mem_of_mapFind hfA)).symm
      have hgA : A.getBufferBinding (R, L) = eA := by simp [BindingState.getBufferBinding, hfA]
      simp only [diffValue, hkey, hgA, hgB, Bool.false_or]
      rw [differs_comm]
      have : changed h BufferBinding.empty = false := rfl
      rw [this]
      cases changed h eA <;> cases eA.differs BufferBinding.empty <;> rfl
    | none =>
      have hgA : A.getBufferBinding (R, L) = BufferBinding.empty := by
        simp [BindingState.getBufferBinding, hfA]
      rw [hgA, hgB]
      rfl

theorem texBit_wf (A B : BindingState) (hA : A.WF) (hB : B.WF) (u : Nat) :
    texBit false A B.textures u (texBit false B A.textures u false) =
      (A.getTexture u != B.getTexture u) := by
  unfold texBit
  rw [mapFindLast_eq_mapFind hA.2.1, mapFindLast_eq_mapFind hB.2.1]
  unfold BindingState.getTexture
  cases hfB : mapFind B.textures u with
  | some tB => simp
  | none =>
    cases hfA : mapFind A.textures u with
    | some tA =>
      simp only [Bool.false_or]
      rw [bne_swap]
    | none => rfl

theorem capacity_pos_role {lim : Limits} {R L : Nat} (hL : L < lim.capacity R) :
    isBufferRole R := by
  unfold Limits.capacity at hL
  unfold isBufferRole
  split_ifs at hL with h1 h2 h3 h4
  · exact Or.inl h1
  · exact Or.inr (Or.inl h2)
  · exact Or.inr (Or.inr (Or.inl h3))
  · exact Or.inr (Or.inr (Or.inr h4))
  · exact absurd hL (Nat.not_lt_zero _)

/-! ## Theorems about `makeDiff` -/

theorem makeDiff_wf_spec (h : Heap) (lim : Limits) (A B : BindingState)
    (hA : A.WF) (hB : B.WF) (hAr : A.InRange lim) (hBr : B.InRange lim) :
    ∃ d, makeDiff h lim A B false = some d ∧
      (∀ R, (d.bitsetOf R).size = lim.capacity R) ∧ d.textures.size = lim.maxTextures ∧
      (∀ R L, isBufferRole R → (d.bitsetOf R).isSet L =
        ((A.getBufferBinding (R, L)).differs (B.getBufferBinding (R, L)) ||
          changed h (A.getBufferBinding (R, L)) || changed h (B.getBufferBinding (R, L)))) ∧
      (∀ u, d.textures.isSet u = (A.getTexture u != B.getTexture u)) := by
  obtain ⟨d, hd, hsz, htsz, hbuf, htex⟩ := makeDiff_spec h lim A B false hAr hBr
  refine ⟨d, hd, hsz, htsz, ?_, ?_⟩
  · intro R L hR
    rw [hbuf R L hR, bufBit_wf h A B hA hB]
  · intro u
    rw [htex u, texBit_wf A B hA hB]

/-- C1 (diff completeness). For well-formed states `A` and `B` whose locations
are below the capacities, `makeDiff` with `forced = false` returns a diff in
which bit `L` of the bitset of role `R` is set exactly when the slot `(R, L)`
is changed (the two records, an absent one read as the default record, differ
in buffer, offset or size, or one of them has drifted), is clear exactly when
it is not, and in which bit `u` of `textures` is set exactly when the two
texture references at unit `u` differ. -/
theorem makeDiff_complete (h : Heap) (lim : Limits) (A B : BindingState)
    (hA : A.WF) (hB : B.WF) (hAr : A.InRange lim) (hBr : B.InRange lim) :
    ∃ d, makeDiff h lim A B false = some d ∧
      (∀ R L, L < lim.capacity R →
        ((d.bitsetOf R).test L = some true ↔ slotChanged h A B (R, L)) ∧
        ((d.bitsetOf R).test L = some false ↔ ¬ slotChanged h A B (R, L))) ∧
      (∀ u, u < lim.maxTextures →
        (d.textures.test u = some true ↔ A.getTexture u ≠ B.getTexture u) ∧
        (d.textures.test u = some false ↔ A.getTexture u = B.getTexture u)) := by
  obtain ⟨d, hd, hsz, htsz, hbuf, htex⟩ := makeDiff_wf_spec h lim A B hA hB hAr hBr
  refine ⟨d, hd, ?_, ?_⟩
  · intro R L hL
    have hR : isBufferRole R := capacity_pos_role hL
    have hlt : L < (d.bitsetOf R).size := by
      rw [hsz]
      exact hL
    rw [Bitset.test_of_lt _ _ hlt, hbuf R L hR]
    unfold slotChanged
    cases (A.getBufferBinding (R, L)).differs (B.getBufferBinding (R, L)) <;>
      cases changed h (A.getBufferBinding (R, L)) <;>
      cases changed h (B.getBufferBinding (R, L)) <;> simp
  · intro u hu
    have hlt : u < d.textures.size := by
      rw [htsz]
      exact hu
    rw [Bitset.test_of_lt _ _ hlt, htex u]
    by_cases he : A.getTexture u = B.getTexture u
    · simp [he]
    · simp [he]

/-- Witness of C1 on the example applied and target states. -/
theorem makeDiff_complete_witness :
    exampleApplied.WF ∧ exampleTarget.WF ∧ exampleApplied.InRange exampleLimits ∧
    exampleTarget.InRange exampleLimits ∧
    ∃ d, makeDiff exampleHeap exampleLimits exampleApplied exampleTarget false = some d ∧
      (∀ R L, L < exampleLimits.capacity R →
        ((d.bitsetOf R).test L = some true ↔
          slotChanged exampleHeap exampleApplied exampleTarget (R, L)) ∧
        ((d.bitsetOf R).test L = some false ↔
          ¬ slotChanged exampleHeap exampleApplied exampleTarget (R, L))) ∧
      (∀ u, u < exampleLimits.maxTextures →
        (d.textures.test u = some true ↔
          exampleApplied.getTexture u ≠ exampleTarget.getTexture u) ∧
        (d.textures.test u = some false ↔
          exampleApplied.getTexture u = exampleTarget.getTexture u)) :=
  ⟨by decide, by decide, by decide, by decide,
   makeDiff_complete exampleHeap exampleLimits exampleApplied exampleTarget
     (by decide) (by decide) (by decide) (by decide)⟩

theorem slot_of_mapFind {s : BindingState} (hs : s.WF) {R L : Nat} {e : BufferBinding}
    (hf : mapFind s.buffers (R, L) = some e) : e.target = R ∧ e.location = L := by
  have hkey : (R, L) = e._key := hs.2.2 _ (mem_of_mapFind hf)
  unfold BufferBinding._key at hkey
  exact ⟨(congrArg Prod.fst hkey).symm, (congrArg Prod.snd hkey).symm⟩

theorem capacity_of_mapFind {lim : Limits} {s : BindingState} (hs : s.WF)
    (hr : s.InRange lim) {R L : Nat} {e : BufferBinding} (hR : isBufferRole R)
    (hf : mapFind s.buffers (R, L) = some e) : L < lim.capacity R := by
  obtain ⟨ht, hl⟩ := slot_of_mapFind hs hf
  have := hr.1 _ (mem_of_mapFind hf)
  simp only [ht, hl] at this
  exact this hR

/-- C2 (drift detection). If the current state `A` holds, at a slot of one of
the four buffer roles, a non-empty buffer whose recorded offset or size is
not the live one, then for every target state `B` the diff computed with
`forced = false` has the bit of that slot set. -/
theorem makeDiff_detects_drift (h : Heap) (lim : Limits) (A B : BindingState)
    (hA : A.WF) (hB : B.WF) (hAr : A.InRange lim) (hBr : B.InRange lim)
    (R L : Nat) (e : BufferBinding) (b : Nat) (hR : isBufferRole R)
    (hf : mapFind A.buffers (R, L) = some e) (hb : e.buffer = some b)
    (hdrift : e.offset ≠ h.getOffset b ∨ e.size ≠ h.getSize b) :
    ∃ d, makeDiff h lim A B false = some d ∧ (d.bitsetOf R).test L = some true := by
  obtain ⟨d, hd, hsz, _, hbuf, _⟩ := makeDiff_wf_spec h lim A B hA hB hAr hBr
  refine ⟨d, hd, ?_⟩
  rw [Bitset.test_eq_some_true, hbuf R L hR]
  have hgA : A.getBufferBinding (R, L) = e := by simp [BindingState.getBufferBinding, hf]
  have hch : changed h e = true := by
    unfold changed
    rw [hb]
    rcases hdrift with ho | hs
    · simp [ho]
    · simp [hs]
  rw [hgA, hch]
  simp

/-- Witness of C2: the uniform binding 2 of the example applied state has
drifted and the target holds the very same record. -/
theorem makeDiff_detects_drift_witness :
    ∃ d, makeDiff exampleHeap exampleLimits exampleApplied exampleTarget false = some d ∧
      (d.bitsetOf GL_UNIFORM_BUFFER).test 2 = some true :=
  makeDiff_detects_drift exampleHeap exampleLimits exampleApplied exampleTarget
    (by decide) (by decide) (by decide) (by decide) GL_UNIFORM_BUFFER 2
    ⟨some 1, 0, 8, GL_UNIFORM_BUFFER, 2⟩ 1 (by decide) (by decide) rfl (Or.inr (by decide))


/-- C6, refuted as stated: texture unit 0 is present in the current state only
(explicitly emptied there), and `makeDiff` with `forced = false` leaves its
bit clear, because the emptied unit is compared with the null reference that
stands for the absent unit. -/
theorem makeDiff_one_sided_counterexample :
    0 ∈ mapKeys nullTextureState.textures ∧ 0 ∉ mapKeys emptyState.textures ∧
    (makeDiff exampleHeap exampleLimits nullTextureState emptyState false).map
      (fun d => d.textures.test 0) = some (some false) := by
  decide

/-- The buffer analogue of the refutation of C6, under the modelled
`operator!=`: an explicitly emptied uniform binding with zero recorded extent,
present in the current state only, leaves its bit clear. -/
theorem makeDiff_one_sided_null_buffer :
    mapFind nullBufferState.buffers (GL_UNIFORM_BUFFER, 1) ≠ none ∧
    mapFind emptyState.buffers (GL_UNIFORM_BUFFER, 1) = none ∧
    (makeDiff exampleHeap exampleLimits nullBufferState emptyState false).map
      (fun d => d.ubos.test 1) = some (some false) := by
  decide

theorem differs_empty_iff (e : BufferBinding) :
    e.differs BufferBinding.empty = true ↔ (e.buffer ≠ none ∨ e.offset ≠ 0 ∨ e.size ≠ 0) := by
  unfold BufferBinding.differs BufferBinding.empty
  simp only [Bool.or_eq_true, bne_iff_ne, ne_eq, or_assoc]

theorem buffer_of_changed (h : Heap) (e : BufferBinding) (hc : changed h e = true) :
    e.buffer ≠ none := by
  intro hb
  unfold changed at hc
  rw [hb] at hc
  cases hc

/-- C6, amended. For well-formed states within the capacities and
`forced = false`: a buffer slot of one of the four roles that is present in
exactly one of the two states has its bit set exactly when its record is not
the default one (it holds a buffer, or a non-zero recorded offset or size); a
texture unit present in exactly one of the two states has its bit set exactly
when its reference is not null. -/
theorem makeDiff_one_sided (h : Heap) (lim : Limits) (A B : BindingState)
    (hA : A.WF) (hB : B.WF) (hAr : A.InRange lim) (hBr : B.InRange lim) :
    ∃ d, makeDiff h lim A B false = some d ∧
      (∀ R L e, isBufferRole R →
        (mapFind A.buffers (R, L) = some e ∧ mapFind B.buffers (R, L) = none ∨
          mapFind A.buffers (R, L) = none ∧ mapFind B.buffers (R, L) = some e) →
        ((d.bitsetOf R).test L = some true ↔
          (e.buffer ≠ none ∨ e.offset ≠ 0 ∨ e.size ≠ 0))) ∧
      (∀ u t,
        (mapFind A.textures u = some t ∧ mapFind B.textures u = none ∨
          mapFind A.textures u = none ∧ mapFind B.textures u = some t) →
        (d.textures.test u = some true ↔ t ≠ none)) := by
  obtain ⟨d, hd, hsz, htsz, hbuf, htex⟩ := makeDiff_wf_spec h lim A B hA hB hAr hBr
  refine ⟨d, hd, ?_, ?_⟩
  · intro R L e hR hside
    rw [Bitset.test_eq_some_true, hbuf R L hR]
    have hempty : changed h BufferBinding.empty = false := rfl
    have hkey : (e.differs BufferBinding.empty || changed h e) = true ↔
        (e.buffer ≠ none ∨ e.offset ≠ 0 ∨ e.size ≠ 0) := by
      rw [Bool.or_eq_true]
      constructor
      · rintro (h1 | h1)
        · exact (differs_empty_iff e).mp h1
        · exact Or.inl (buffer_of_changed h e h1)
      · intro hp
        exact Or.inl ((differs_empty_iff e).mpr hp)
    rcases hside with ⟨hfA, hfB⟩ | ⟨hfA, hfB⟩
    · have hgA : A.getBufferBinding (R, L) = e := by
        simp [BindingState.getBufferBinding, hfA]
      have hgB : B.getBufferBinding (R, L) = BufferBinding.empty := by
        simp [BindingState.getBufferBinding, hfB]
      rw [hgA, hgB, hempty, Bool.or_false]
      exact hkey
    · have hgA : A.getBufferBinding (R, L) = BufferBinding.empty := by
        simp [BindingState.getBufferBinding, hfA]
      have hgB : B.getBufferBinding (R, L) = e := by
        simp [BindingState.getBufferBinding, hfB]
      rw [hgA, hgB, hempty, Bool.or_false, differs_comm]
      exact hkey
  · intro u t hside
    rw [Bitset.test_eq_some_true, htex u]
    rcases hside with ⟨hfA, hfB⟩ | ⟨hfA, hfB⟩
    · simp [BindingState.getTexture, hfA, hfB]
    · simp only [BindingState.getTexture, hfA, hfB]
      rw [bne_swap]
      simp

/-- Witness of the amended C6 on the example applied and target states. -/
theorem makeDiff_one_sided_witness :
    exampleApplied.WF ∧ exampleTarget.WF ∧ exampleApplied.InRange exampleLimits ∧
    exampleTarget.InRange exampleLimits ∧
    ∃ d, makeDiff exampleHeap exampleLimits exampleApplied exampleTarget false = some d ∧
      (∀ R L e, isBufferRole R →
        (mapFind exampleApplied.buffers (R, L) = some e ∧
            mapFind exampleTarget.buffers (R, L) = none ∨
          mapFind exampleApplied.buffers (R, L) = none ∧
            mapFind exampleTarget.buffers (R, L) = some e) →
        ((d.bitsetOf R).test L = some true ↔
          (e.buffer ≠ none ∨ e.offset ≠ 0 ∨ e.size ≠ 0))) ∧
      (∀ u t,
        (mapFind exampleApplied.textures u = some t ∧
            mapFind exampleTarget.textures u = none ∨
          mapFind exampleApplied.textures u = none ∧
            mapFind exampleTarget.textures u = some t) →
        (d.textures.test u = some true ↔ t ≠ none)) :=
  ⟨by decide, by decide, by decide, by decide,
   makeDiff_one_sided exampleHeap exampleLimits exampleApplied exampleTarget
     (by decide) (by decide) (by decide) (by decide)⟩

/-- C7 (category routing and exactness). Against the empty applied state, a
target whose only slot is a non-empty buffer at role `R` and location `L`
yields, with `forced = false`, a diff in which bit `L` of the bitset of `R`
is set, no other bit of any buffer bitset is set, and no texture bit is set. -/
theorem makeDiff_single_slot (h : Heap) (lim : Limits) (R L b off sz : Nat)
    (hL : L < lim.capacity R) :
    ∃ d, makeDiff h lim emptyState ⟨[((R, L), ⟨some b, off, sz, R, L⟩)], []⟩ false = some d ∧
      (d.bitsetOf R).test L = some true ∧
      (∀ R2 L2, isBufferRole R2 → (R2, L2) ≠ (R, L) →
        (d.bitsetOf R2).test L2 ≠ some true) ∧
      (∀ u, d.textures.test u ≠ some true) := by
  have hR : isBufferRole R := capacity_pos_role hL
  have hT : (⟨[((R, L), ⟨some b, off, sz, R, L⟩)], []⟩ : BindingState).WF := by
    refine ⟨by simp [mapKeys], by simp [mapKeys], ?_⟩
    intro x hx
    simp only [List.mem_singleton] at hx
    subst hx
    rfl
  have hTr : (⟨[((R, L), ⟨some b, off, sz, R, L⟩)], []⟩ : BindingState).InRange lim := by
    refine ⟨?_, by simp⟩
    intro x hx _
    simp only [List.mem_singleton] at hx
    subst hx
    exact hL
  have hE : emptyState.WF := by decide
  have hEr : emptyState.InRange lim := ⟨by simp [emptyState], by simp [emptyState]⟩
  obtain ⟨d, hd, hsz, htsz, hbuf, htex⟩ := makeDiff_wf_spec h lim emptyState _ hE hT hEr hTr
  refine ⟨d, hd, ?_, ?_, ?_⟩
  · rw [Bitset.test_eq_some_true, hbuf R L hR]
    simp [BindingState.getBufferBinding, mapFind, emptyState, BufferBinding.differs,
      BufferBinding.empty]
  · intro R2 L2 hR2 hne
    rw [Ne, Bitset.test_eq_some_true, hbuf R2 L2 hR2]
    have hne2 : ¬ (R, L) = (R2, L2) := fun e => hne e.symm
    simp [BindingState.getBufferBinding, mapFind, emptyState, hne2, BufferBinding.differs,
      BufferBinding.empty, changed]
  · intro u
    rw [Ne, Bitset.test_eq_some_true, htex u]
    simp [BindingState.getTexture, mapFind, emptyState]

/-- Witness of C7: the scenario of the spec, buffer 7 bound at uniform
binding 2. -/
theorem makeDiff_single_slot_witness :
    ∃ d, makeDiff exampleHeap exampleLimits emptyState
        ⟨[((GL_UNIFORM_BUFFER, 2), ⟨some 7, 0, 16, GL_UNIFORM_BUFFER, 2⟩)], []⟩ false = some d ∧
      (d.bitsetOf GL_UNIFORM_BUFFER).test 2 = some true ∧
      (∀ R2 L2, isBufferRole R2 → (R2, L2) ≠ (GL_UNIFORM_BUFFER, 2) →
        (d.bitsetOf R2).test L2 ≠ some true) ∧
      (∀ u, d.textures.test u ≠ some true) :=
  makeDiff_single_slot exampleHeap exampleLimits GL_UNIFORM_BUFFER 2 7 0 16 (by decide)

theorem bufBit_forced (h : Heap) (other : BindingState)
    (l : List (BufferKey × BufferBinding)) (R L : Nat) (dflt : Bool) :
    bufBit h true other l R L dflt = true ↔
      (∃ x ∈ l, x.2.target = R ∧ x.2.location = L) ∨ dflt = true := by
  unfold bufBit
  have hkeys : (R, L) ∈ mapKeys (rekey l) ↔ ∃ x ∈ l, x.2.target = R ∧ x.2.location = L := by
    unfold mapKeys rekey
    simp only [List.map_map, List.mem_map, Function.comp, BufferBinding._key, Prod.mk.injEq]
  cases hlast : mapFindLast (rekey l) (R, L) with
  | some e =>
    have hin : (R, L) ∈ mapKeys (rekey l) := by
      by_contra hc
      rw [mapFindLast_eq_none_iff.mpr hc] at hlast
      cases hlast
    simp only [diffValue, Bool.true_or, true_iff]
    exact Or.inl (hkeys.mp hin)
  | none =>
    have hnin : (R, L) ∉ mapKeys (rekey l) := mapFindLast_eq_none_iff.mp hlast
    simp only
    constructor
    · exact fun hd => Or.inr hd
    · rintro (hx | hd)
      · exact absurd (hkeys.mpr hx) hnin
      · exact hd

theorem texBit_forced (other : BindingState) (l : List (Nat × Option Nat))
    (u : Nat) (dflt : Bool) :
    texBit true other l u dflt = true ↔ u ∈ mapKeys l ∨ dflt = true := by
  unfold texBit
  cases hlast : mapFindLast l u with
  | some t =>
    have hin : u ∈ mapKeys l := by
      by_contra hc
      rw [mapFindLast_eq_none_iff.mpr hc] at hlast
      cases hlast
    simp [hin]
  | none =>
    have hnin : u ∉ mapKeys l := mapFindLast_eq_none_iff.mp hlast
    simp [hnin]

/-- C8 (forced diff). With `forced = true`, for states within the capacities,
bit `L` of the bitset of role `R` is set exactly when the current or the
target state holds a record of role `R` at location `L`, and bit `u` of
`textures` is set exactly when the current or the target state holds a
record at unit `u`, whatever the records are. -/
theorem makeDiff_forced (h : Heap) (lim : Limits) (A B : BindingState)
    (hAr : A.InRange lim) (hBr : B.InRange lim) :
    ∃ d, makeDiff h lim A B true = some d ∧
      (∀ R L, isBufferRole R →
        ((d.bitsetOf R).test L = some true ↔
          (∃ x ∈ A.buffers, x.2.target = R ∧ x.2.location = L) ∨
          (∃ x ∈ B.buffers, x.2.target = R ∧ x.2.location = L))) ∧
      (∀ u, d.textures.test u = some true ↔
        u ∈ mapKeys A.textures ∨ u ∈ mapKeys B.textures) := by
  obtain ⟨d, hd, hsz, htsz, hbuf, htex⟩ := makeDiff_spec h lim A B true hAr hBr
  refine ⟨d, hd, ?_, ?_⟩
  · intro R L hR
    rw [Bitset.test_eq_some_true, hbuf R L hR, bufBit_forced, bufBit_forced]
    simp only [Bool.false_eq_true, or_false]
    exact Or.comm
  · intro u
    rw [Bitset.test_eq_some_true, htex u, texBit_forced, texBit_forced]
    simp only [Bool.false_eq_true, or_false]
    exact Or.comm

/-- Witness of C8 on the example applied and target states. -/
theorem makeDiff_forced_witness :
    exampleApplied.InRange exampleLimits ∧ exampleTarget.InRange exampleLimits ∧
    ∃ d, makeDiff exampleHeap exampleLimits exampleApplied exampleTarget true = some d ∧
      (∀ R L, isBufferRole R →
        ((d.bitsetOf R).test L = some true ↔
          (∃ x ∈ exampleApplied.buffers, x.2.target = R ∧ x.2.location = L) ∨
          (∃ x ∈ exampleTarget.buffers, x.2.target = R ∧ x.2.location = L))) ∧
      (∀ u, d.textures.test u = some true ↔
        u ∈ mapKeys exampleApplied.textures ∨ u ∈ mapKeys exampleTarget.textures) :=
  ⟨by decide, by decide,
   makeDiff_forced exampleHeap exampleLimits exampleApplied exampleTarget
     (by decide) (by decide)⟩


/-! ## One call of `bindOrRemoveBuffer` -/

theorem slotAfter_idem (h : Heap) (o : Option BufferBinding) :
    slotAfter h (slotAfter h o) = slotAfter h o := by
  cases o with
  | none => rfl
  | some e =>
    cases hb : e.buffer with
    | none => simp [slotAfter, hb]
    | some b => simp [slotAfter, hb]

theorem bindOrRemoveBuffer_none (h : Heap)
    (st : List (BufferKey × BufferBinding) × List GLCall) (R i : Nat)
    (hf : mapFind st.1 (R, i) = none) : bindOrRemoveBuffer h st R i = st := by
  simp only [bindOrRemoveBuffer, hf]

theorem bindOrRemoveBuffer_null (h : Heap)
    (st : List (BufferKey × BufferBinding) × List GLCall) (R i : Nat) (e : BufferBinding)
    (hf : mapFind st.1 (R, i) = some e) (hb : e.buffer = none) :
    bindOrRemoveBuffer h st R i =
      (mapErase st.1 (R, i), st.2 ++ [GLCall.glBindBufferBase R i 0]) := by
  simp only [bindOrRemoveBuffer, hf, hb]

theorem bindOrRemoveBuffer_some (h : Heap)
    (st : List (BufferKey × BufferBinding) × List GLCall) (R i : Nat) (e : BufferBinding)
    (b : Nat) (hf : mapFind st.1 (R, i) = some e) (hb : e.buffer = some b) :
    bindOrRemoveBuffer h st R i =
      (mapAssign st.1 (R, i) { e with offset := h.getOffset b, size := h.getSize b },
       st.2 ++ [GLCall.bufferBind b R i]) := by
  simp only [bindOrRemoveBuffer, hf, hb]

theorem bindOrRemoveBuffer_nodup (h : Heap)
    (st : List (BufferKey × BufferBinding) × List GLCall) (R i : Nat)
    (hnd : (mapKeys st.1).Nodup) : (mapKeys (bindOrRemoveBuffer h st R i).1).Nodup := by
  cases hf : mapFind st.1 (R, i) with
  | none =>
    rw [bindOrRemoveBuffer_none h st R i hf]
    exact hnd
  | some e =>
    cases hb : e.buffer with
    | none =>
      rw [bindOrRemoveBuffer_null h st R i e hf hb]
      exact nodup_mapErase _ hnd
    | some b =>
      rw [bindOrRemoveBuffer_some h st R i e b hf hb]
      simp only
      rw [mapKeys_mapAssign]
      exact hnd

theorem bindOrRemoveBuffer_find (h : Heap)
    (st : List (BufferKey × BufferBinding) × List GLCall) (R i : Nat)
    (hnd : (mapKeys st.1).Nodup) (k : BufferKey) :
    mapFind (bindOrRemoveBuffer h st R i).1 k =
      if k = (R, i) then slotAfter h (mapFind st.1 k) else mapFind st.1 k := by
  cases hf : mapFind st.1 (R, i) with
  | none =>
    rw [bindOrRemoveBuffer_none h st R i hf]
    by_cases hk : k = (R, i)
    · subst hk
      simp [hf, slotAfter]
    · simp [hk]
  | some e =>
    cases hb : e.buffer with
    | none =>
      rw [bindOrRemoveBuffer_null h st R i e hf hb]
      simp only
      rw [mapFind_mapErase hnd]
      by_cases hk : k = (R, i)
      · subst hk
        simp [hf, slotAfter, hb]
      · simp [hk]
    | some b =>
      rw [bindOrRemoveBuffer_some h st R i e b hf hb]
      simp only
      rw [mapFind_mapAssign]
      by_cases hk : k = (R, i)
      · subst hk
        simp [hf, slotAfter, hb]
      · simp [hk]

theorem bindOrRemoveBuffer_calls (h : Heap)
    (st : List (BufferKey × BufferBinding) × List GLCall) (R i : Nat) :
    (bindOrRemoveBuffer h st R i).2 = st.2 ++ slotCalls (mapFind st.1 (R, i)) R i := by
  cases hf : mapFind st.1 (R, i) with
  | none =>
    rw [bindOrRemoveBuffer_none h st R i hf]
    simp [slotCalls]
  | some e =>
    cases hb : e.buffer with
    | none =>
      rw [bindOrRemoveBuffer_null h st R i e hf hb]
      simp [slotCalls, hb]
    | some b =>
      rw [bindOrRemoveBuffer_some h st R i e b hf hb]
      simp [slotCalls, hb]

theorem callsAt_append (c1 c2 : List GLCall) (sl : Slot) :
    callsAt (c1 ++ c2) sl = callsAt c1 sl ++ callsAt c2 sl := by
  unfold callsAt
  exact List.filter_append _ _

theorem callsAt_slotCalls (o : Option BufferBinding) (R i : Nat) (sl : Slot) :
    callsAt (slotCalls o R i) sl = if sl = Slot.buffer R i then slotCalls o R i else [] := by
  have hsym : ∀ a : Slot, (a = sl) = (sl = a) := fun a => propext eq_comm
  cases o with
  | none => simp [slotCalls, callsAt]
  | some e =>
    cases hb : e.buffer with
    | none =>
      by_cases hs : sl = Slot.buffer R i
      · simp [slotCalls, hb, callsAt, GLCall.slot, hs]
      · have hs2 : ¬ Slot.buffer R i = sl := fun e => hs e.symm
        simp [slotCalls, hb, callsAt, GLCall.slot, hs, hs2]
    | some b =>
      by_cases hs : sl = Slot.buffer R i
      · simp [slotCalls, hb, callsAt, GLCall.slot, hs]
      · have hs2 : ¬ Slot.buffer R i = sl := fun e => hs e.symm
        simp [slotCalls, hb, callsAt, GLCall.slot, hs, hs2]

theorem callsAt_texCalls (h : Heap) (o : Option (Option Nat)) (i : Nat) (sl : Slot) :
    callsAt (texCalls h o i) sl = if sl = Slot.texture i then texCalls h o i else [] := by
  by_cases hs : sl = Slot.texture i
  · rcases o with _ | _ | t <;> simp [texCalls, callsAt, GLCall.slot, hs]
  · have hs2 : ¬ Slot.texture i = sl := fun e => hs e.symm
    rcases o with _ | _ | t <;> simp [texCalls, callsAt, GLCall.slot, hs, hs2]


/-! ## The buffer loops of `apply` -/

theorem applyBufferLoop_eq (h : Heap) (bits : Bitset) (R : Nat) (hsz : bits.size ≤ 255) :
    ∀ (n fuel i : Nat) (st : List (BufferKey × BufferBinding) × List GLCall),
      i + n = bits.size → n < fuel →
      applyBufferLoop h bits R fuel i st =
        some ((List.range' i n).foldl (applyBufferIter h bits R) st) := by
  intro n
  induction n with
  | zero =>
    intro fuel i st hi hf
    cases fuel with
    | zero => omega
    | succ f =>
      have hge : ¬ i < bits.size := by omega
      simp [applyBufferLoop, hge]
  | succ n ih =>
    intro fuel i st hi hf
    cases fuel with
    | zero => omega
    | succ f =>
      have hlt : i < bits.size := by omega
      have hmod : (i + 1) % 256 = i + 1 := Nat.mod_eq_of_lt (by omega)
      rw [List.range'_succ, List.foldl_cons]
      simp only [applyBufferLoop, hlt, if_true, Bitset.test_of_lt _ _ hlt, hmod]
      cases hb : bits.isSet i with
      | true =>
        simp only
        rw [ih f (i + 1) _ (by omega) (by omega)]
        simp [applyBufferIter, hb]
      | false =>
        simp only
        rw [ih f (i + 1) _ (by omega) (by omega)]
        simp [applyBufferIter, hb]

theorem isSet_of_any_false (bits : Bitset) (hany : bits.any = false) (i : Nat) :
    bits.isSet i = false := by
  cases hb : bits.isSet i with
  | false => rfl
  | true =>
    have ht : bits.bits[i]? = some true := (Bitset.test_eq_some_true bits i).mpr hb
    have hmem : true ∈ bits.bits := List.getElem?_mem ht
    have : bits.any = true := by
      unfold Bitset.any
      exact List.any_eq_true.mpr ⟨true, hmem, rfl⟩
    rw [hany] at this
    cases this

theorem foldl_applyBufferIter_clear (h : Heap) (bits : Bitset) (R : Nat)
    (hclear : ∀ i, bits.isSet i = false) (is : List Nat)
    (st : List (BufferKey × BufferBinding) × List GLCall) :
    is.foldl (applyBufferIter h bits R) st = st := by
  induction is with
  | nil => rfl
  | cons i rest ih =>
    rw [List.foldl_cons]
    simp only [applyBufferIter, hclear i, Bool.false_eq_true, if_false]
    exact ih

theorem applyBuffers_eq (h : Heap) (fuel : Nat) (bits : Bitset) (R : Nat)
    (st : List (BufferKey × BufferBinding) × List GLCall)
    (hsz : bits.size ≤ 255) (hfuel : 255 < fuel) :
    applyBuffers h fuel bits R st =
      some ((List.range' 0 bits.size).foldl (applyBufferIter h bits R) st) := by
  unfold applyBuffers
  cases hany : bits.any with
  | true =>
    simp only [if_true]
    exact applyBufferLoop_eq h bits R hsz bits.size fuel 0 st (by omega) (by omega)
  | false =>
    simp only [Bool.false_eq_true, if_false]
    rw [foldl_applyBufferIter_clear h bits R (isSet_of_any_false bits hany)]

theorem applyBufferIter_nodup (h : Heap) (bits : Bitset) (R i : Nat)
    (st : List (BufferKey × BufferBinding) × List GLCall)
    (hnd : (mapKeys st.1).Nodup) : (mapKeys (applyBufferIter h bits R st i).1).Nodup := by
  unfold applyBufferIter
  split
  · exact bindOrRemoveBuffer_nodup h st R i hnd
  · exact hnd

theorem applyBufferIter_find (h : Heap) (bits : Bitset) (R i : Nat)
    (st : List (BufferKey × BufferBinding) × List GLCall)
    (hnd : (mapKeys st.1).Nodup) (k : BufferKey) :
    mapFind (applyBufferIter h bits R st i).1 k =
      if k = (R, i) ∧ bits.isSet i = true then slotAfter h (mapFind st.1 k)
      else mapFind st.1 k := by
  unfold applyBufferIter
  cases hb : bits.isSet i with
  | true =>
    simp only [if_true, and_true]
    exact bindOrRemoveBuffer_find h st R i hnd k
  | false => simp

theorem applyBufferIter_calls (h : Heap) (bits : Bitset) (R i : Nat)
    (st : List (BufferKey × BufferBinding) × List GLCall) :
    (applyBufferIter h bits R st i).2 =
      st.2 ++ if bits.isSet i = true then slotCalls (mapFind st.1 (R, i)) R i else [] := by
  unfold applyBufferIter
  cases hb : bits.isSet i with
  | true =>
    simp only [if_true]
    exact bindOrRemoveBuffer_calls h st R i
  | false => simp

theorem callsAt_nil (sl : Slot) : callsAt [] sl = [] := rfl

theorem foldl_applyBufferIter_spec (h : Heap) (bits : Bitset) (R : Nat) (is : List Nat)
    (his : is.Nodup) (st : List (BufferKey × BufferBinding) × List GLCall)
    (hnd : (mapKeys st.1).Nodup) :
    (mapKeys (is.foldl (applyBufferIter h bits R) st).1).Nodup ∧
    (∀ R2 L, mapFind (is.foldl (applyBufferIter h bits R) st).1 (R2, L) =
      if R2 = R ∧ L ∈ is ∧ bits.isSet L = true then slotAfter h (mapFind st.1 (R2, L))
      else mapFind st.1 (R2, L)) ∧
    (∀ R2 L, callsAt (is.foldl (applyBufferIter h bits R) st).2 (Slot.buffer R2 L) =
      callsAt st.2 (Slot.buffer R2 L) ++
        if R2 = R ∧ L ∈ is ∧ bits.isSet L = true then slotCalls (mapFind st.1 (R2, L)) R2 L
        else []) ∧
    (∀ u, callsAt (is.foldl (applyBufferIter h bits R) st).2 (Slot.texture u) =
      callsAt st.2 (Slot.texture u)) := by
  induction is generalizing st with
  | nil => exact ⟨hnd, by simp, by simp, by simp⟩
  | cons i rest ih =>
    rw [List.nodup_cons] at his
    obtain ⟨hnotin, hrest⟩ := his
    have hnd1 := applyBufferIter_nodup h bits R i st hnd
    obtain ⟨ih1, ih2, ih3, ih4⟩ := ih hrest (applyBufferIter h bits R st i) hnd1
    rw [List.foldl_cons]
    refine ⟨ih1, ?_, ?_, ?_⟩
    · intro R2 L
      rw [ih2, applyBufferIter_find h bits R i st hnd]
      by_cases hR : R2 = R
      · subst hR
        by_cases hL : L = i
        · subst hL
          simp only [true_and, hnotin, false_and, if_false, List.mem_cons, true_or]
        · have hk : ¬ ((R2, L) = (R2, i)) := by
            intro e
            exact hL (congrArg Prod.snd e)
          simp only [true_and, hk, false_and, if_false, List.mem_cons, hL, false_or]
      · simp [hR]
    · intro R2 L
      rw [ih3, applyBufferIter_calls, callsAt_append, applyBufferIter_find h bits R i st hnd]
      by_cases hR : R2 = R
      · subst hR
        by_cases hL : L = i
        · subst hL
          cases hb : bits.isSet L <;> simp [hnotin, callsAt_slotCalls, callsAt_nil]
        · have hk : ¬ ((R2, L) = (R2, i)) := by
            intro e
            exact hL (congrArg Prod.snd e)
          have hsl : ¬ (Slot.buffer R2 L = Slot.buffer R2 i) := by
            intro e
            injection e with _ e2
            exact hL e2
          cases hb : bits.isSet i <;> simp [hk, hL, hsl, callsAt_slotCalls, callsAt_nil]
      · have hsl : ¬ (Slot.buffer R2 L = Slot.buffer R i) := by
          intro e
          injection e with e1 _
          exact hR e1
        cases hb : bits.isSet i <;> simp [hR, hsl, callsAt_slotCalls, callsAt_nil]
    · intro u
      rw [ih4, applyBufferIter_calls, callsAt_append]
      have hsl : ¬ (Slot.texture u = Slot.buffer R i) := by
        intro e
        cases e
      cases hb : bits.isSet i <;> simp [hsl, callsAt_slotCalls, callsAt_nil]


/-! ## The texture loop of `apply` -/

theorem texAfter_idem (o : Option (Option Nat)) : texAfter (texAfter o) = texAfter o := by
  rcases o with _ | _ | t <;> rfl

theorem applyTextureStep_absent (h : Heap) (st : List (Nat × Option Nat) × List GLCall)
    (i : Nat) (hf : mapFind st.1 i = none) : applyTextureStep h st i = st := by
  simp only [applyTextureStep, hf]

theorem applyTextureStep_null (h : Heap) (st : List (Nat × Option Nat) × List GLCall)
    (i : Nat) (hf : mapFind st.1 i = some none) :
    applyTextureStep h st i = (mapErase st.1 i, st.2 ++ [GLCall.glBindTextureUnit i 0]) := by
  simp only [applyTextureStep, hf]

theorem applyTextureStep_some (h : Heap) (st : List (Nat × Option Nat) × List GLCall)
    (i t : Nat) (hf : mapFind st.1 i = some (some t)) :
    applyTextureStep h st i = (st.1, st.2 ++ [GLCall.glBindTextureUnit i (h.getGLId t)]) := by
  simp only [applyTextureStep, hf]

theorem applyTextureStep_nodup (h : Heap) (st : List (Nat × Option Nat) × List GLCall)
    (i : Nat) (hnd : (mapKeys st.1).Nodup) : (mapKeys (applyTextureStep h st i).1).Nodup := by
  rcases hf : mapFind st.1 i with _ | _ | t
  · rw [applyTextureStep_absent h st i hf]
    exact hnd
  · rw [applyTextureStep_null h st i hf]
    exact nodup_mapErase _ hnd
  · rw [applyTextureStep_some h st i t hf]
    exact hnd

theorem applyTextureStep_find (h : Heap) (st : List (Nat × Option Nat) × List GLCall)
    (i : Nat) (hnd : (mapKeys st.1).Nodup) (u : Nat) :
    mapFind (applyTextureStep h st i).1 u =
      if u = i then texAfter (mapFind st.1 u) else mapFind st.1 u := by
  rcases hf : mapFind st.1 i with _ | _ | t
  · rw [applyTextureStep_absent h st i hf]
    by_cases hu : u = i
    · subst hu
      simp [hf, texAfter]
    · simp [hu]
  · rw [applyTextureStep_null h st i hf]
    simp only
    rw [mapFind_mapErase hnd]
    by_cases hu : u = i
    · subst hu
      simp [hf, texAfter]
    · simp [hu]
  · rw [applyTextureStep_some h st i t hf]
    by_cases hu : u = i
    · subst hu
      simp [hf, texAfter]
    · simp [hu]

theorem applyTextureStep_calls (h : Heap) (st : List (Nat × Option Nat) × List GLCall)
    (i : Nat) : (applyTextureStep h st i).2 = st.2 ++ texCalls h (mapFind st.1 i) i := by
  rcases hf : mapFind st.1 i with _ | _ | t
  · rw [applyTextureStep_absent h st i hf]
    simp [texCalls]
  · rw [applyTextureStep_null h st i hf]
    simp [texCalls]
  · rw [applyTextureStep_some h st i t hf]
    simp [texCalls]

theorem applyTextureLoop_eq (h : Heap) (bits : Bitset) (maxTex : Nat)
    (hmax : maxTex ≤ 255) (hbits : maxTex ≤ bits.size) :
    ∀ (n fuel i : Nat) (st : List (Nat × Option Nat) × List GLCall),
      i + n = maxTex → n < fuel →
      applyTextureLoop h bits maxTex fuel i st =
        some ((List.range' i n).foldl (applyTextureIter h bits) st) := by
  intro n
  induction n with
  | zero =>
    intro fuel i st hi hf
    cases fuel with
    | zero => omega
    | succ f =>
      have hge : ¬ i < maxTex := by omega
      simp [applyTextureLoop, hge]
  | succ n ih =>
    intro fuel i st hi hf
    cases fuel with
    | zero => omega
    | succ f =>
      have hlt : i < maxTex := by omega
      have hlt2 : i < bits.size := by omega
      have hmod : (i + 1) % 256 = i + 1 := Nat.mod_eq_of_lt (by omega)
      rw [List.range'_succ, List.foldl_cons]
      simp only [applyTextureLoop, hlt, if_true, Bitset.test_of_lt _ _ hlt2, hmod]
      cases hb : bits.isSet i with
      | true =>
        simp only
        rw [ih f (i + 1) _ (by omega) (by omega)]
        simp [applyTextureIter, hb]
      | false =>
        simp only
        rw [ih f (i + 1) _ (by omega) (by omega)]
        simp [applyTextureIter, hb]

theorem foldl_applyTextureIter_clear (h : Heap) (bits : Bitset)
    (hclear : ∀ i, bits.isSet i = false) (is : List Nat)
    (st : List (Nat × Option Nat) × List GLCall) :
    is.foldl (applyTextureIter h bits) st = st := by
  induction is with
  | nil => rfl
  | cons i rest ih =>
    rw [List.foldl_cons]
    simp only [applyTextureIter, hclear i, Bool.false_eq_true, if_false]
    exact ih

theorem applyTextures_eq (h : Heap) (fuel : Nat) (bits : Bitset) (maxTex : Nat)
    (st : List (Nat × Option Nat) × List GLCall)
    (hmax : maxTex ≤ 255) (hbits : maxTex ≤ bits.size) (hfuel : 255 < fuel) :
    applyTextures h fuel bits maxTex st =
      some ((List.range' 0 maxTex).foldl (applyTextureIter h bits) st) := by
  unfold applyTextures
  cases hany : bits.any with
  | true =>
    simp only [if_true]
    exact applyTextureLoop_eq h bits maxTex hmax hbits maxTex fuel 0 st (by omega) (by omega)
  | false =>
    simp only [Bool.false_eq_true, if_false]
    rw [foldl_applyTextureIter_clear h bits (isSet_of_any_false bits hany)]

theorem applyTextureIter_nodup (h : Heap) (bits : Bitset) (i : Nat)
    (st : List (Nat × Option Nat) × List GLCall)
    (hnd : (mapKeys st.1).Nodup) : (mapKeys (applyTextureIter h bits st i).1).Nodup := by
  unfold applyTextureIter
  split
  · exact applyTextureStep_nodup h st i hnd
  · exact hnd

theorem applyTextureIter_find (h : Heap) (bits : Bitset) (i : Nat)
    (st : List (Nat × Option Nat) × List GLCall)
    (hnd : (mapKeys st.1).Nodup) (u : Nat) :
    mapFind (applyTextureIter h bits st i).1 u =
      if u = i ∧ bits.isSet i = true then texAfter (mapFind st.1 u) else mapFind st.1 u := by
  unfold applyTextureIter
  cases hb : bits.isSet i with
  | true =>
    simp only [if_true, and_true]
    exact applyTextureStep_find h st i hnd u
  | false => simp

theorem applyTextureIter_calls (h : Heap) (bits : Bitset) (i : Nat)
    (st : List (Nat × Option Nat) × List GLCall) :
    (applyTextureIter h bits st i).2 =
      st.2 ++ if bits.isSet i = true then texCalls h (mapFind st.1 i) i else [] := by
  unfold applyTextureIter
  cases hb : bits.isSet i with
  | true =>
    simp only [if_true]
    exact applyTextureStep_calls h st i
  | false => simp

theorem foldl_applyTextureIter_spec (h : Heap) (bits : Bitset) (is : List Nat)
    (his : is.Nodup) (st : List (Nat × Option Nat) × List GLCall)
    (hnd : (mapKeys st.1).Nodup) :
    (mapKeys (is.foldl (applyTextureIter h bits) st).1).Nodup ∧
    (∀ u, mapFind (is.foldl (applyTextureIter h bits) st).1 u =
      if u ∈ is ∧ bits.isSet u = true then texAfter (mapFind st.1 u) else mapFind st.1 u) ∧
    (∀ u, callsAt (is.foldl (applyTextureIter h bits) st).2 (Slot.texture u) =
      callsAt st.2 (Slot.texture u) ++
        if u ∈ is ∧ bits.isSet u = true then texCalls h (mapFind st.1 u) u else []) ∧
    (∀ R L, callsAt (is.foldl (applyTextureIter h bits) st).2 (Slot.buffer R L) =
      callsAt st.2 (Slot.buffer R L)) := by
  induction is generalizing st with
  | nil => exact ⟨hnd, by simp, by simp, by simp⟩
  | cons i rest ih =>
    rw [List.nodup_cons] at his
    obtain ⟨hnotin, hrest⟩ := his
    have hnd1 := applyTextureIter_nodup h bits i st hnd
    obtain ⟨ih1, ih2, ih3, ih4⟩ := ih hrest (applyTextureIter h bits st i) hnd1
    rw [List.foldl_cons]
    refine ⟨ih1, ?_, ?_, ?_⟩
    · intro u
      rw [ih2, applyTextureIter_find h bits i st hnd]
      by_cases hu : u = i
      · subst hu
        simp only [true_and, hnotin, false_and, if_false, List.mem_cons, true_or]
      · simp only [hu, false_and, if_false, List.mem_cons, false_or]
    · intro u
      rw [ih3, applyTextureIter_calls, callsAt_append, applyTextureIter_find h bits i st hnd]
      by_cases hu : u = i
      · subst hu
        cases hb : bits.isSet u <;> simp [hnotin, callsAt_texCalls, callsAt_nil]
      · have hsl : ¬ (Slot.texture u = Slot.texture i) := by
          intro e
          injection e with e1
          exact hu e1
        cases hb : bits.isSet i <;> simp [hu, hsl, callsAt_texCalls, callsAt_nil]
    · intro R L
      rw [ih4, applyTextureIter_calls, callsAt_append]
      have hsl : ¬ (Slot.buffer R L = Slot.texture i) := by
        intro e
        cases e
      cases hb : bits.isSet i <;> simp [hsl, callsAt_texCalls, callsAt_nil]


/-! ## The function `apply` as a whole -/

theorem isSet_lt (bits : Bitset) (L : Nat) (hb : bits.isSet L = true) : L < bits.size := by
  have ht : bits.bits[L]? = some true := (Bitset.test_eq_some_true bits L).mpr hb
  obtain ⟨hlt, _⟩ := List.getElem?_eq_some.mp ht
  exact hlt

theorem applyBuffers_spec (h : Heap) (fuel : Nat) (bits : Bitset) (R : Nat)
    (st : List (BufferKey × BufferBinding) × List GLCall)
    (hsz : bits.size ≤ 255) (hfuel : 255 < fuel) (hnd : (mapKeys st.1).Nodup) :
    ∃ st', applyBuffers h fuel bits R st = some st' ∧ (mapKeys st'.1).Nodup ∧
      (∀ R2 L, mapFind st'.1 (R2, L) =
        if R2 = R ∧ bits.isSet L = true then slotAfter h (mapFind st.1 (R2, L))
        else mapFind st.1 (R2, L)) ∧
      (∀ R2 L, callsAt st'.2 (Slot.buffer R2 L) =
        callsAt st.2 (Slot.buffer R2 L) ++
          if R2 = R ∧ bits.isSet L = true then slotCalls (mapFind st.1 (R2, L)) R2 L
          else []) ∧
      (∀ u, callsAt st'.2 (Slot.texture u) = callsAt st.2 (Slot.texture u)) := by
  obtain ⟨h1, h2, h3, h4⟩ := foldl_applyBufferIter_spec h bits R (List.range' 0 bits.size)
    (List.nodup_range' 0 bits.size) st hnd
  have hmem : ∀ L, (L ∈ List.range' 0 bits.size ∧ bits.isSet L = true) ↔
      bits.isSet L = true := by
    intro L
    constructor
    · exact fun hx => hx.2
    · intro hb
      refine ⟨?_, hb⟩
      rw [List.mem_range'_1]
      have := isSet_lt bits L hb
      omega
  refine ⟨_, applyBuffers_eq h fuel bits R st hsz hfuel, h1, ?_, ?_, h4⟩
  · intro R2 L
    rw [h2 R2 L]
    simp only [hmem L]
  · intro R2 L
    rw [h3 R2 L]
    simp only [hmem L]

theorem applyTextures_spec (h : Heap) (fuel : Nat) (bits : Bitset) (maxTex : Nat)
    (st : List (Nat × Option Nat) × List GLCall)
    (hmax : maxTex ≤ 255) (hbits : maxTex ≤ bits.size) (hfuel : 255 < fuel)
    (hnd : (mapKeys st.1).Nodup) :
    ∃ st', applyTextures h fuel bits maxTex st = some st' ∧ (mapKeys st'.1).Nodup ∧
      (∀ u, mapFind st'.1 u =
        if u < maxTex ∧ bits.isSet u = true then texAfter (mapFind st.1 u)
        else mapFind st.1 u) ∧
      (∀ u, callsAt st'.2 (Slot.texture u) =
        callsAt st.2 (Slot.texture u) ++
          if u < maxTex ∧ bits.isSet u = true then texCalls h (mapFind st.1 u) u else []) ∧
      (∀ R L, callsAt st'.2 (Slot.buffer R L) = callsAt st.2 (Slot.buffer R L)) := by
  obtain ⟨h1, h2, h3, h4⟩ := foldl_applyTextureIter_spec h bits (List.range' 0 maxTex)
    (List.nodup_range' 0 maxTex) st hnd
  have hmem : ∀ u, u ∈ List.range' 0 maxTex ↔ u < maxTex := by
    intro u
    rw [List.mem_range'_1]
    omega
  refine ⟨_, applyTextures_eq h fuel bits maxTex st hmax hbits hfuel, h1, ?_, ?_, h4⟩
  · intro u
    rw [h2 u]
    simp only [hmem u]
  · intro u
    rw [h3 u]
    simp only [hmem u]

theorem bufSet_iff (d : StateDiff_t) (R L : Nat) :
    bufSet d R L ↔
      (R = GL_SHADER_STORAGE_BUFFER ∧ d.ssbos.isSet L = true) ∨
      (R = GL_UNIFORM_BUFFER ∧ d.ubos.isSet L = true) ∨
      (R = GL_ATOMIC_COUNTER_BUFFER ∧ d.acbos.isSet L = true) ∨
      (R = GL_TRANSFORM_FEEDBACK_BUFFER ∧ d.tfbos.isSet L = true) := by
  obtain ⟨n1, n2, n3, n4, n5, n6⟩ := gl_roles_distinct
  unfold bufSet isBufferRole StateDiff_t.bitsetOf
  rw [Bitset.test_eq_some_true]
  by_cases h1 : R = GL_SHADER_STORAGE_BUFFER
  · subst h1
    simp [n1, n2, n3]
  by_cases h2 : R = GL_UNIFORM_BUFFER
  · subst h2
    simp [n1.symm, n4, n5]
  by_cases h3 : R = GL_ATOMIC_COUNTER_BUFFER
  · subst h3
    simp [n2.symm, n4.symm, n6]
  by_cases h4 : R = GL_TRANSFORM_FEEDBACK_BUFFER
  · subst h4
    simp [n3.symm, n5.symm, n6.symm]
  simp [h1, h2, h3, h4]

theorem apply_spec (h : Heap) (lim : Limits) (fuel : Nat) (s : BindingState)
    (d : StateDiff_t) (hready : ApplyReady lim d) (hfuel : 255 < fuel)
    (hnb : (mapKeys s.buffers).Nodup) (hnt : (mapKeys s.textures).Nodup) :
    ∃ s' calls, apply h lim fuel s d = some (s', calls) ∧
      (mapKeys s'.buffers).Nodup ∧ (mapKeys s'.textures).Nodup ∧
      (∀ R L, mapFind s'.buffers (R, L) =
        if bufSet d R L then slotAfter h (mapFind s.buffers (R, L))
        else mapFind s.buffers (R, L)) ∧
      (∀ u, mapFind s'.textures u =
        if texSet lim d u then texAfter (mapFind s.textures u) else mapFind s.textures u) ∧
      (∀ R L, callsAt calls (Slot.buffer R L) =
        if bufSet d R L then slotCalls (mapFind s.buffers (R, L)) R L else []) ∧
      (∀ u, callsAt calls (Slot.texture u) =
        if texSet lim d u then texCalls h (mapFind s.textures u) u else []) := by
  obtain ⟨r1, r2, r3, r4, r5, r6⟩ := hready
  obtain ⟨n1, n2, n3, n4, n5, n6⟩ := gl_roles_distinct
  obtain ⟨st1, e1, nd1, f1, c1, t1⟩ :=
    applyBuffers_spec h fuel d.ssbos GL_SHADER_STORAGE_BUFFER (s.buffers, []) r1 hfuel hnb
  obtain ⟨st2, e2, nd2, f2, c2, t2⟩ :=
    applyBuffers_spec h fuel d.ubos GL_UNIFORM_BUFFER st1 r2 hfuel nd1
  obtain ⟨st3, e3, nd3, f3, c3, t3⟩ :=
    applyBuffers_spec h fuel d.acbos GL_ATOMIC_COUNTER_BUFFER st2 r3 hfuel nd2
  obtain ⟨st4, e4, nd4, f4, c4, t4⟩ :=
    applyBuffers_spec h fuel d.tfbos GL_TRANSFORM_FEEDBACK_BUFFER st3 r4 hfuel nd3
  obtain ⟨st5, e5, nd5, f5, c5, b5⟩ :=
    applyTextures_spec h fuel d.textures lim.maxTextureBindings (s.textures, st4.2)
      r5 r6 hfuel hnt
  refine ⟨⟨st4.1, st5.1⟩, st5.2, ?_, nd4, nd5, ?_, ?_, ?_, ?_⟩
  · simp [apply, e1, e2, e3, e4, e5]
  · intro R L
    rw [f4, f3, f2, f1]
    simp only [bufSet_iff]
    by_cases h1 : R = GL_SHADER_STORAGE_BUFFER
    · subst h1
      simp [n1, n2, n3]
    by_cases h2 : R = GL_UNIFORM_BUFFER
    · subst h2
      simp [n1.symm, n4, n5]
    by_cases h3 : R = GL_ATOMIC_COUNTER_BUFFER
    · subst h3
      simp [n2.symm, n4.symm, n6]
    by_cases h4 : R = GL_TRANSFORM_FEEDBACK_BUFFER
    · subst h4
      simp [n3.symm, n5.symm, n6.symm]
    simp [h1, h2, h3, h4]
  · intro u
    rw [f5 u]
    simp only [texSet, Bitset.test_eq_some_true]
  · intro R L
    rw [b5, c4, c3, c2, c1, f3, f2, f1]
    simp only [bufSet_iff, callsAt_nil, List.nil_append]
    by_cases h1 : R = GL_SHADER_STORAGE_BUFFER
    · subst h1
      simp [n1, n2, n3]
    by_cases h2 : R = GL_UNIFORM_BUFFER
    · subst h2
      simp [n1.symm, n4, n5]
    by_cases h3 : R = GL_ATOMIC_COUNTER_BUFFER
    · subst h3
      simp [n2.symm, n4.symm, n6]
    by_cases h4 : R = GL_TRANSFORM_FEEDBACK_BUFFER
    · subst h4
      simp [n3.symm, n5.symm, n6.symm]
    simp [h1, h2, h3, h4]
  · intro u
    rw [c5 u]
    simp only [t4, t3, t2, t1, callsAt_nil, List.nil_append, texSet, Bitset.test_eq_some_true]


theorem slotAfter_eq_some {h : Heap} {o : Option BufferBinding} {e : BufferBinding}
    (hs : slotAfter h o = some e) :
    ∃ e0 b, o = some e0 ∧ e0.buffer = some b ∧ e.buffer = some b ∧ e.target = e0.target ∧
      e.location = e0.location ∧ e.offset = h.getOffset b ∧ e.size = h.getSize b := by
  cases o with
  | none => simp [slotAfter] at hs
  | some e0 =>
    cases hb : e0.buffer with
    | none => simp [slotAfter, hb] at hs
    | some b =>
      simp only [slotAfter, hb, Option.some.injEq] at hs
      subst hs
      exact ⟨e0, b, rfl, hb, rfl, rfl, rfl, rfl, rfl⟩

theorem texAfter_eq_some {o : Option (Option Nat)} {t : Option Nat}
    (hs : texAfter o = some t) : o = some t ∧ t ≠ none := by
  rcases o with _ | _ | t0
  · simp [texAfter] at hs
  · simp [texAfter] at hs
  · simp only [texAfter, Option.some.injEq] at hs
    subst hs
    exact ⟨rfl, by simp⟩

theorem ready_of_sizes {lim : Limits} {d : StateDiff_t} (hlim : lim.Ready)
    (hsz : ∀ R, (d.bitsetOf R).size = lim.capacity R)
    (htsz : d.textures.size = lim.maxTextures) : ApplyReady lim d := by
  obtain ⟨n1, n2, n3, n4, n5, n6⟩ := gl_roles_distinct
  obtain ⟨r1, r2, r3, r4, r5, r6⟩ := hlim
  have s1 := hsz GL_SHADER_STORAGE_BUFFER
  have s2 := hsz GL_UNIFORM_BUFFER
  have s3 := hsz GL_ATOMIC_COUNTER_BUFFER
  have s4 := hsz GL_TRANSFORM_FEEDBACK_BUFFER
  simp only [StateDiff_t.bitsetOf, Limits.capacity, if_true, n1.symm, n2.symm, n3.symm,
    n4.symm, n5.symm, n6.symm, if_false] at s1 s2 s3 s4
  refine ⟨?_, ?_, ?_, ?_, r5, ?_⟩
  · rw [s1]
    exact r1
  · rw [s2]
    exact r2
  · rw [s3]
    exact r3
  · rw [s4]
    exact r4
  · rw [htsz]
    exact r6

theorem apply_preserves_wf (h : Heap) (lim : Limits) (d : StateDiff_t)
    (s s' : BindingState) (hs : s.WF) (hr : s.InRange lim)
    (hnb : (mapKeys s'.buffers).Nodup) (hnt : (mapKeys s'.textures).Nodup)
    (hfind : ∀ R L, mapFind s'.buffers (R, L) =
      if bufSet d R L then slotAfter h (mapFind s.buffers (R, L))
      else mapFind s.buffers (R, L))
    (htfind : ∀ u, mapFind s'.textures u =
      if texSet lim d u then texAfter (mapFind s.textures u) else mapFind s.textures u) :
    s'.WF ∧ s'.InRange lim := by
  have hprov : ∀ x ∈ s'.buffers, ∃ e0, (x.1, e0) ∈ s.buffers ∧ x.2.target = e0.target ∧
      x.2.location = e0.location := by
    intro x hx
    obtain ⟨⟨R, L⟩, e⟩ := x
    have hf : mapFind s'.buffers (R, L) = some e := mapFind_of_mem hnb hx
    rw [hfind R L] at hf
    by_cases hset : bufSet d R L
    · rw [if_pos hset] at hf
      obtain ⟨e0, b, h0, _, _, ht, hl, _, _⟩ := slotAfter_eq_some hf
      exact ⟨e0, mem_of_mapFind h0, ht, hl⟩
    · rw [if_neg hset] at hf
      exact ⟨e, mem_of_mapFind hf, rfl, rfl⟩
  refine ⟨⟨hnb, hnt, ?_⟩, ?_, ?_⟩
  · intro x hx
    obtain ⟨e0, hmem, ht, hl⟩ := hprov x hx
    have hk := hs.2.2 _ hmem
    simp only at hk
    rw [hk]
    unfold BufferBinding._key
    rw [ht, hl]
  · intro x hx hrole
    obtain ⟨e0, hmem, ht, hl⟩ := hprov x hx
    have hk := hr.1 _ hmem
    simp only at hk
    rw [ht, hl]
    rw [ht] at hrole
    exact hk hrole
  · intro x hx
    obtain ⟨u, t⟩ := x
    have hf : mapFind s'.textures u = some t := mapFind_of_mem hnt hx
    rw [htfind u] at hf
    have hT : ∃ t0, mapFind s.textures u = some t0 := by
      by_cases hset : texSet lim d u
      · rw [if_pos hset] at hf
        exact ⟨t, (texAfter_eq_some hf).1⟩
      · rw [if_neg hset] at hf
        exact ⟨t, hf⟩
    obtain ⟨t0, ht0⟩ := hT
    exact hr.2 (u, t0) (mem_of_mapFind ht0)

theorem apply_after_diff (h : Heap) (lim : Limits) (fuel : Nat)
    (A T : BindingState) (forced : Bool) (hT : T.WF) (hAr : A.InRange lim)
    (hTr : T.InRange lim) (hlim : lim.Ready) (hfuel : 255 < fuel) :
    ∃ d T' calls, makeDiff h lim A T forced = some d ∧
      apply h lim fuel T d = some (T', calls) ∧ T'.WF ∧ T'.InRange lim ∧
      (∀ R L, mapFind T'.buffers (R, L) =
        if bufSet d R L then slotAfter h (mapFind T.buffers (R, L))
        else mapFind T.buffers (R, L)) ∧
      (∀ u, mapFind T'.textures u =
        if texSet lim d u then texAfter (mapFind T.textures u) else mapFind T.textures u) ∧
      (∀ R L e, isBufferRole R → ¬ bufSet d R L → mapFind T.buffers (R, L) = some e →
        forced = false ∧ changed h e = false ∧ (A.getBufferBinding (R, L)).differs e = false) := by
  obtain ⟨d, hd, hsz, htsz, hbuf, _⟩ := makeDiff_spec h lim A T forced hAr hTr
  obtain ⟨T', calls, happ, hnb, hnt, hfind, htfind, _, _⟩ :=
    apply_spec h lim fuel T d (ready_of_sizes hlim hsz htsz) hfuel hT.1 hT.2.1
  obtain ⟨hwf, hrange⟩ := apply_preserves_wf h lim d T T' hT hTr hnb hnt hfind htfind
  refine ⟨d, T', calls, hd, happ, hwf, hrange, hfind, htfind, ?_⟩
  intro R L e hR hset hf
  have hclear : (d.bitsetOf R).isSet L = false := by
    cases hb2 : (d.bitsetOf R).isSet L with
    | false => rfl
    | true => exact absurd ⟨hR, (Bitset.test_eq_some_true _ _).mpr hb2⟩ hset
  rw [hbuf R L hR] at hclear
  unfold bufBit at hclear
  rw [rekey_eq_self hT.2.2, mapFindLast_eq_mapFind hT.1, hf] at hclear
  have hkey : e._key = (R, L) := (hT.2.2 _ (mem_of_mapFind hf)).symm
  simp only [diffValue, Bool.or_eq_false_iff, hkey] at hclear
  exact ⟨hclear.1.1, hclear.1.2, hclear.2⟩

theorem changed_of_live (h : Heap) (e : BufferBinding)
    (hlive : ∀ b, e.buffer = some b → e.offset = h.getOffset b ∧ e.size = h.getSize b) :
    changed h e = false := by
  unfold changed
  cases hb : e.buffer with
  | none => rfl
  | some b =>
    obtain ⟨ho, hs⟩ := hlive b hb
    simp [ho, hs]

theorem live_of_changed (h : Heap) (e : BufferBinding) (b : Nat) (hb : e.buffer = some b)
    (hch : changed h e = false) : e.offset = h.getOffset b ∧ e.size = h.getSize b := by
  unfold changed at hch
  rw [hb] at hch
  simp only [Bool.or_eq_false_iff, bne_eq_false_iff_eq] at hch
  exact hch

theorem differs_self (e : BufferBinding) : e.differs e = false := by
  simp [BufferBinding.differs]

/-! ## Theorems about `apply` -/

/-- C4 (extent guarantee of apply). Let `d` be the diff `makeDiff` computes
for the target `T` against any current state `A`, with any `forced`. Then
`apply` on `T` with `d` returns, and in the state it leaves every slot of one
of the four buffer roles that holds a buffer `b` has recorded offset and size
equal to the live `getOffset()` and `getSize()` of `b`. -/
theorem apply_records_live_extent (h : Heap) (lim : Limits) (fuel : Nat)
    (A T : BindingState) (forced : Bool) (hT : T.WF) (hAr : A.InRange lim)
    (hTr : T.InRange lim) (hlim : lim.Ready) (hfuel : 255 < fuel) :
    ∃ d T' calls, makeDiff h lim A T forced = some d ∧
      apply h lim fuel T d = some (T', calls) ∧
      ∀ R L e b, isBufferRole R → mapFind T'.buffers (R, L) = some e → e.buffer = some b →
        e.offset = h.getOffset b ∧ e.size = h.getSize b := by
  obtain ⟨d, T', calls, hd, happ, _, _, hfind, _, hclear⟩ :=
    apply_after_diff h lim fuel A T forced hT hAr hTr hlim hfuel
  refine ⟨d, T', calls, hd, happ, ?_⟩
  intro R L e b hR hf hb
  rw [hfind R L] at hf
  by_cases hset : bufSet d R L
  · rw [if_pos hset] at hf
    obtain ⟨e0, b0, _, _, hb0, _, _, ho, hs⟩ := slotAfter_eq_some hf
    rw [hb] at hb0
    cases hb0
    exact ⟨ho, hs⟩
  · rw [if_neg hset] at hf
    exact live_of_changed h e b hb (hclear R L e hR hset hf).2.1

/-- Witness of C4: the example target applied against the example applied
state. -/
theorem apply_records_live_extent_witness :
    exampleTarget.WF ∧ exampleApplied.InRange exampleLimits ∧
    exampleTarget.InRange exampleLimits ∧ exampleLimits.Ready ∧
    ∃ d T' calls, makeDiff exampleHeap exampleLimits exampleApplied exampleTarget false = some d ∧
      apply exampleHeap exampleLimits 256 exampleTarget d = some (T', calls) ∧
      ∀ R L e b, isBufferRole R → mapFind T'.buffers (R, L) = some e → e.buffer = some b →
        e.offset = exampleHeap.getOffset b ∧ e.size = exampleHeap.getSize b :=
  ⟨by decide, by decide, by decide, by decide,
   apply_records_live_extent exampleHeap exampleLimits 256 exampleApplied exampleTarget false
     (by decide) (by decide) (by decide) (by decide) (by decide)⟩

/-- C9, refuted as stated: uniform binding 2 and texture unit 0 are bound in
the applied state and absent from the target, so their bits are set in the
diff; `apply` on the target issues no call at all for them. -/
theorem apply_absent_slot_counterexample :
    mapFind emptyState.buffers (GL_UNIFORM_BUFFER, 2) = none ∧
    mapFind emptyState.textures 0 = none ∧
    (makeDiff exampleHeap exampleLimits exampleApplied emptyState false).map
      (fun d => (d.ubos.test 2, d.textures.test 0)) = some (some true, some true) ∧
    ((makeDiff exampleHeap exampleLimits exampleApplied emptyState false).bind
      fun d => (apply exampleHeap exampleLimits 256 emptyState d).map fun r => r.2) =
      some [] := by
  decide

/-- C9, amended. For a slot of a buffer role or a texture unit whose record
is absent from the state `apply` runs on, `apply` issues no native call that
addresses it, whether its bit is set or not, and the slot is absent
afterwards: the unbind call is issued only for a slot that is present and
explicitly emptied. -/
theorem apply_absent_slot (h : Heap) (lim : Limits) (fuel : Nat) (s : BindingState)
    (d : StateDiff_t) (hready : ApplyReady lim d) (hfuel : 255 < fuel)
    (hnb : (mapKeys s.buffers).Nodup) (hnt : (mapKeys s.textures).Nodup) :
    ∃ s' calls, apply h lim fuel s d = some (s', calls) ∧
      (∀ R L, mapFind s.buffers (R, L) = none →
        callsAt calls (Slot.buffer R L) = [] ∧ mapFind s'.buffers (R, L) = none) ∧
      (∀ u, mapFind s.textures u = none →
        callsAt calls (Slot.texture u) = [] ∧ mapFind s'.textures u = none) := by
  obtain ⟨s', calls, happ, _, _, hfind, htfind, hcalls, htcalls⟩ :=
    apply_spec h lim fuel s d hready hfuel hnb hnt
  refine ⟨s', calls, happ, ?_, ?_⟩
  · intro R L hf
    rw [hcalls R L, hfind R L, hf]
    simp [slotCalls, slotAfter]
  · intro u hf
    rw [htcalls u, htfind u, hf]
    simp [texCalls, texAfter]

/-- Witness of the amended C9: `removalState` under `exampleDiff`, whose
storage bit 1 is set for an absent slot. -/
theorem apply_absent_slot_witness :
    ApplyReady exampleLimits exampleDiff ∧
    bufSet exampleDiff GL_SHADER_STORAGE_BUFFER 1 ∧
    mapFind removalState.buffers (GL_SHADER_STORAGE_BUFFER, 1) = none ∧
    ∃ s' calls, apply exampleHeap exampleLimits 256 removalState exampleDiff = some (s', calls) ∧
      (∀ R L, mapFind removalState.buffers (R, L) = none →
        callsAt calls (Slot.buffer R L) = [] ∧ mapFind s'.buffers (R, L) = none) ∧
      (∀ u, mapFind removalState.textures u = none →
        callsAt calls (Slot.texture u) = [] ∧ mapFind s'.textures u = none) :=
  ⟨by decide, by decide, by decide,
   apply_absent_slot exampleHeap exampleLimits 256 removalState exampleDiff
     (by decide) (by decide) (by decide) (by decide)⟩

theorem apply_of_no_bit (h : Heap) (lim : Limits) (fuel : Nat) (s : BindingState)
    (d : StateDiff_t) (h1 : d.ssbos.any = false) (h2 : d.ubos.any = false)
    (h3 : d.acbos.any = false) (h4 : d.tfbos.any = false) (h5 : d.textures.any = false) :
    apply h lim fuel s d = some (s, []) := by
  simp [apply, applyBuffers, applyTextures, h1, h2, h3, h4, h5]

theorem slotCalls_length (o : Option BufferBinding) (R L : Nat) :
    (slotCalls o R L).length ≤ 1 := by
  cases o with
  | none => simp [slotCalls]
  | some e =>
    cases hb : e.buffer <;> simp [slotCalls, hb]

theorem texCalls_length (h : Heap) (o : Option (Option Nat)) (u : Nat) :
    (texCalls h o u).length ≤ 1 := by
  rcases o with _ | _ | t <;> simp [texCalls]

/-- C10 (minimal application). For every state and every diff whose loops
end, `apply` issues native calls only for binding points whose bit is set, at
most one call per binding point, and leaves the record of every slot whose
bit is not set as it was; a diff with no bit set issues no call and leaves
the state as it was. -/
theorem apply_minimal (h : Heap) (lim : Limits) (fuel : Nat) (s : BindingState)
    (d : StateDiff_t) (hready : ApplyReady lim d) (hfuel : 255 < fuel)
    (hnb : (mapKeys s.buffers).Nodup) (hnt : (mapKeys s.textures).Nodup) :
    ∃ s' calls, apply h lim fuel s d = some (s', calls) ∧
      (∀ c ∈ calls, slotSet lim d c.slot) ∧
      (∀ sl, (callsAt calls sl).length ≤ 1) ∧
      (∀ R L, ¬ bufSet d R L → mapFind s'.buffers (R, L) = mapFind s.buffers (R, L)) ∧
      (∀ u, ¬ texSet lim d u → mapFind s'.textures u = mapFind s.textures u) ∧
      (d.ssbos.any = false → d.ubos.any = false → d.acbos.any = false →
        d.tfbos.any = false → d.textures.any = false → s' = s ∧ calls = []) := by
  obtain ⟨s', calls, happ, _, _, hfind, htfind, hcalls, htcalls⟩ :=
    apply_spec h lim fuel s d hready hfuel hnb hnt
  refine ⟨s', calls, happ, ?_, ?_, ?_, ?_, ?_⟩
  · intro c hc
    have hmem : c ∈ callsAt calls c.slot := by
      unfold callsAt
      exact List.mem_filter.mpr ⟨hc, by simp⟩
    cases hsl : c.slot with
    | buffer R L =>
      rw [hsl, hcalls R L] at hmem
      by_cases hset : bufSet d R L
      · exact hset
      · rw [if_neg hset] at hmem
        cases hmem
    | texture u =>
      rw [hsl, htcalls u] at hmem
      by_cases hset : texSet lim d u
      · exact hset
      · rw [if_neg hset] at hmem
        cases hmem
  · intro sl
    cases sl with
    | buffer R L =>
      rw [hcalls R L]
      split
      · exact slotCalls_length _ _ _
      · simp
    | texture u =>
      rw [htcalls u]
      split
      · exact texCalls_length _ _ _
      · simp
  · intro R L hset
    rw [hfind R L, if_neg hset]
  · intro u hset
    rw [htfind u, if_neg hset]
  · intro h1 h2 h3 h4 h5
    rw [apply_of_no_bit h lim fuel s d h1 h2 h3 h4 h5] at happ
    simp only [Option.some.injEq, Prod.mk.injEq] at happ
    exact ⟨happ.1.symm, happ.2.symm⟩

/-- Witness of C10: `removalState` under `exampleDiff`. -/
theorem apply_minimal_witness :
    ApplyReady exampleLimits exampleDiff ∧
    ∃ s' calls, apply exampleHeap exampleLimits 256 removalState exampleDiff = some (s', calls) ∧
      (∀ c ∈ calls, slotSet exampleLimits exampleDiff c.slot) ∧
      (∀ sl, (callsAt calls sl).length ≤ 1) ∧
      (∀ R L, ¬ bufSet exampleDiff R L →
        mapFind s'.buffers (R, L) = mapFind removalState.buffers (R, L)) ∧
      (∀ u, ¬ texSet exampleLimits exampleDiff u →
        mapFind s'.textures u = mapFind removalState.textures u) ∧
      (exampleDiff.ssbos.any = false → exampleDiff.ubos.any = false →
        exampleDiff.acbos.any = false → exampleDiff.tfbos.any = false →
        exampleDiff.textures.any = false → s' = removalState ∧ calls = []) :=
  ⟨by decide,
   apply_minimal exampleHeap exampleLimits 256 removalState exampleDiff
     (by decide) (by decide) (by decide) (by decide)⟩

/-- The run of `apply` on `removalState` under `exampleDiff`, evaluated: the
bound uniform binding is re-recorded with the live size and bound, the
emptied binding and the emptied unit are unbound and erased, the bound
texture is bound, and the set storage bit of an absent slot does nothing. -/
theorem apply_removalState_run :
    apply exampleHeap exampleLimits 256 removalState exampleDiff =
      some (⟨[((GL_UNIFORM_BUFFER, 2), ⟨some 1, 0, 16, GL_UNIFORM_BUFFER, 2⟩)], [(0, some 5)]⟩,
        [GLCall.glBindBufferBase GL_UNIFORM_BUFFER 1 0,
         GLCall.bufferBind 1 GL_UNIFORM_BUFFER 2,
         GLCall.glBindTextureUnit 0 105,
         GLCall.glBindTextureUnit 1 0]) := by
  decide


/-- C3, refuted as stated: against the empty applied state, the target holds
buffer 1 at uniform binding 2 with a drifted recorded size. `apply` re-records
the size in the state it leaves; the diff of that state against the
unmodified target has the bit of uniform binding 2 set again. -/
theorem apply_convergence_counterexample :
    ((makeDiff exampleHeap exampleLimits emptyState driftedTarget false).bind fun d =>
      (apply exampleHeap exampleLimits 256 driftedTarget d).bind fun r =>
        (makeDiff exampleHeap exampleLimits r.1 driftedTarget false).map fun d2 =>
          d2.ubos.test 2) = some (some true) := by
  decide

/-- C3, amended. Let `d` be the diff of the target `T` against the applied
state `A` (any `forced`) and `A'` the state `apply` leaves when it commits
`T` with `d`. The diff of `A'` against the unmodified `T`, with
`forced = false`, has no texture bit set and has the bit of a buffer slot
clear wherever the record of `T` has not drifted and, if emptied, carries a
zero recorded extent. The diff of `A'` against the target as `apply` left it
(the same state `A'`) has no bit set at all. -/
theorem apply_converges (h : Heap) (lim : Limits) (fuel : Nat)
    (A T : BindingState) (forced : Bool) (hT : T.WF) (hAr : A.InRange lim)
    (hTr : T.InRange lim) (hlim : lim.Ready) (hfuel : 255 < fuel) :
    ∃ d A' calls d2 d3, makeDiff h lim A T forced = some d ∧
      apply h lim fuel T d = some (A', calls) ∧
      makeDiff h lim A' T false = some d2 ∧ makeDiff h lim A' A' false = some d3 ∧
      (∀ R L, isBufferRole R → changed h (T.getBufferBinding (R, L)) = false →
        ((T.getBufferBinding (R, L)).buffer = none →
          (T.getBufferBinding (R, L)).offset = 0 ∧ (T.getBufferBinding (R, L)).size = 0) →
        (d2.bitsetOf R).test L ≠ some true) ∧
      (∀ u, d2.textures.test u ≠ some true) ∧
      (∀ R L, isBufferRole R → (d3.bitsetOf R).test L ≠ some true) ∧
      (∀ u, d3.textures.test u ≠ some true) := by
  obtain ⟨d, A', calls, hd, happ, hwf, hrange, hfind, htfind, hclear⟩ :=
    apply_after_diff h lim fuel A T forced hT hAr hTr hlim hfuel
  obtain ⟨d2, hd2, _, _, hbuf2, htex2⟩ := makeDiff_wf_spec h lim A' T hwf hT hrange hTr
  obtain ⟨d3, hd3, _, _, hbuf3, htex3⟩ := makeDiff_wf_spec h lim A' A' hwf hwf hrange hrange
  have hlive : ∀ R L, isBufferRole R → changed h (A'.getBufferBinding (R, L)) = false := by
    intro R L hR
    unfold BindingState.getBufferBinding
    cases hf : mapFind A'.buffers (R, L) with
    | none => rfl
    | some e =>
      simp only
      apply changed_of_live
      intro b hb
      rw [hfind R L] at hf
      by_cases hset : bufSet d R L
      · rw [if_pos hset] at hf
        obtain ⟨e0, b0, _, _, hb0, _, _, ho, hs⟩ := slotAfter_eq_some hf
        rw [hb] at hb0
        cases hb0
        exact ⟨ho, hs⟩
      · rw [if_neg hset] at hf
        exact live_of_changed h e b hb (hclear R L e hR hset hf).2.1
  refine ⟨d, A', calls, d2, d3, hd, happ, hd2, hd3, ?_, ?_, ?_, ?_⟩
  · intro R L hR hnodrift hnull
    rw [Ne, Bitset.test_eq_some_true, hbuf2 R L hR, hlive R L hR, hnodrift]
    simp only [Bool.or_false, Bool.not_eq_true]
    unfold BindingState.getBufferBinding at hnodrift hnull ⊢
    rw [hfind R L]
    cases hf : mapFind T.buffers (R, L) with
    | none =>
      simp only [slotAfter, ite_self]
      rfl
    | some e =>
      rw [hf] at hnodrift hnull
      simp only at hnodrift hnull
      by_cases hset : bufSet d R L
      · rw [if_pos hset]
        cases hb : e.buffer with
        | none =>
          obtain ⟨ho, hs⟩ := hnull hb
          simp [slotAfter, hb, BufferBinding.differs, BufferBinding.empty, ho, hs]
        | some b =>
          obtain ⟨ho, hs⟩ := live_of_changed h e b hb hnodrift
          simp [slotAfter, hb, BufferBinding.differs, ho, hs]
      · rw [if_neg hset]
        exact differs_self e
  · intro u
    rw [Ne, Bitset.test_eq_some_true, htex2 u]
    unfold BindingState.getTexture
    rw [htfind u]
    by_cases hset : texSet lim d u
    · rw [if_pos hset]
      rcases hf : mapFind T.textures u with _ | _ | t <;> simp [texAfter]
    · rw [if_neg hset]
      simp
  · intro R L hR
    rw [Ne, Bitset.test_eq_some_true, hbuf3 R L hR, hlive R L hR, differs_self]
    simp
  · intro u
    rw [Ne, Bitset.test_eq_some_true, htex3 u]
    simp

/-- Witness of the amended C3: the example target committed against the
example applied state. -/
theorem apply_converges_witness :
    exampleTarget.WF ∧ exampleApplied.InRange exampleLimits ∧
    exampleTarget.InRange exampleLimits ∧ exampleLimits.Ready ∧
    ∃ d A' calls d2 d3,
      makeDiff exampleHeap exampleLimits exampleApplied exampleTarget false = some d ∧
      apply exampleHeap exampleLimits 256 exampleTarget d = some (A', calls) ∧
      makeDiff exampleHeap exampleLimits A' exampleTarget false = some d2 ∧
      makeDiff exampleHeap exampleLimits A' A' false = some d3 ∧
      (∀ R L, isBufferRole R →
        changed exampleHeap (exampleTarget.getBufferBinding (R, L)) = false →
        ((exampleTarget.getBufferBinding (R, L)).buffer = none →
          (exampleTarget.getBufferBinding (R, L)).offset = 0 ∧
          (exampleTarget.getBufferBinding (R, L)).size = 0) →
        (d2.bitsetOf R).test L ≠ some true) ∧
      (∀ u, d2.textures.test u ≠ some true) ∧
      (∀ R L, isBufferRole R → (d3.bitsetOf R).test L ≠ some true) ∧
      (∀ u, d3.textures.test u ≠ some true) :=
  ⟨by decide, by decide, by decide, by decide,
   apply_converges exampleHeap exampleLimits 256 exampleApplied exampleTarget false
     (by decide) (by decide) (by decide) (by decide) (by decide)⟩


/-! ## Idempotence of `apply` -/

theorem mapAssign_self {κ α : Type} [DecidableEq κ] {l : List (κ × α)} {k : κ} {v : α}
    (hf : mapFind l k = some v) : mapAssign l k v = l := by
  induction l with
  | nil => rfl
  | cons x rest ih =>
    obtain ⟨k', v'⟩ := x
    by_cases hk : k' = k
    · simp only [mapFind, hk, if_true, Option.some.injEq] at hf
      simp [mapAssign, hk, hf]
    · simp only [mapFind, hk, if_false] at hf
      simp [mapAssign, hk, ih hf]

theorem bindOrRemoveBuffer_fixed (h : Heap)
    (st : List (BufferKey × BufferBinding) × List GLCall) (R i : Nat)
    (hfix : slotAfter h (mapFind st.1 (R, i)) = mapFind st.1 (R, i)) :
    (bindOrRemoveBuffer h st R i).1 = st.1 := by
  cases hf : mapFind st.1 (R, i) with
  | none => rw [bindOrRemoveBuffer_none h st R i hf]
  | some e =>
    rw [hf] at hfix
    cases hb : e.buffer with
    | none => simp [slotAfter, hb] at hfix
    | some b =>
      rw [bindOrRemoveBuffer_some h st R i e b hf hb]
      simp only [slotAfter, hb, Option.some.injEq] at hfix
      simp only
      rw [hb, hfix]
      exact mapAssign_self hf

theorem foldl_applyBufferIter_fixed (h : Heap) (bits : Bitset) (R : Nat) (is : List Nat)
    (st : List (BufferKey × BufferBinding) × List GLCall)
    (hfix : ∀ i, bits.isSet i = true →
      slotAfter h (mapFind st.1 (R, i)) = mapFind st.1 (R, i)) :
    (is.foldl (applyBufferIter h bits R) st).1 = st.1 := by
  induction is generalizing st with
  | nil => rfl
  | cons i rest ih =>
    rw [List.foldl_cons]
    have hstep : (applyBufferIter h bits R st i).1 = st.1 := by
      unfold applyBufferIter
      cases hb : bits.isSet i with
      | true =>
        simp only [if_true]
        exact bindOrRemoveBuffer_fixed h st R i (hfix i hb)
      | false => simp
    rw [ih (applyBufferIter h bits R st i) (by rw [hstep]; exact hfix), hstep]

theorem applyTextureStep_fixed (h : Heap) (st : List (Nat × Option Nat) × List GLCall)
    (i : Nat) (hfix : texAfter (mapFind st.1 i) = mapFind st.1 i) :
    (applyTextureStep h st i).1 = st.1 := by
  rcases hf : mapFind st.1 i with _ | _ | t
  · rw [applyTextureStep_absent h st i hf]
  · rw [hf] at hfix
    simp [texAfter] at hfix
  · rw [applyTextureStep_some h st i t hf]

theorem foldl_applyTextureIter_fixed (h : Heap) (bits : Bitset) (is : List Nat)
    (st : List (Nat × Option Nat) × List GLCall)
    (hfix : ∀ i, i ∈ is → bits.isSet i = true →
      texAfter (mapFind st.1 i) = mapFind st.1 i) :
    (is.foldl (applyTextureIter h bits) st).1 = st.1 := by
  induction is generalizing st with
  | nil => rfl
  | cons i rest ih =>
    rw [List.foldl_cons]
    have hstep : (applyTextureIter h bits st i).1 = st.1 := by
      unfold applyTextureIter
      cases hb : bits.isSet i with
      | true =>
        simp only [if_true]
        exact applyTextureStep_fixed h st i (hfix i (List.mem_cons_self _ _) hb)
      | false => simp
    rw [ih (applyTextureIter h bits st i)
      (by rw [hstep]; exact fun j hj => hfix j (List.mem_cons_of_mem _ hj)), hstep]

theorem applyBuffers_fixed (h : Heap) (fuel : Nat) (bits : Bitset) (R : Nat)
    (st : List (BufferKey × BufferBinding) × List GLCall)
    (hsz : bits.size ≤ 255) (hfuel : 255 < fuel)
    (hfix : ∀ i, bits.isSet i = true →
      slotAfter h (mapFind st.1 (R, i)) = mapFind st.1 (R, i)) :
    ∃ st', applyBuffers h fuel bits R st = some st' ∧ st'.1 = st.1 :=
  ⟨_, applyBuffers_eq h fuel bits R st hsz hfuel,
    foldl_applyBufferIter_fixed h bits R _ st hfix⟩

/-- C11 (idempotence of apply). For every state with distinct keys and every
diff whose loops end, `apply` returns a state `s1`, and `apply` run again on
`s1` with the same diff and the same live extents returns `s1` itself: the
same slot records with the same resource, offset and size. -/
theorem apply_idempotent (h : Heap) (lim : Limits) (fuel : Nat) (s : BindingState)
    (d : StateDiff_t) (hready : ApplyReady lim d) (hfuel : 255 < fuel)
    (hnb : (mapKeys s.buffers).Nodup) (hnt : (mapKeys s.textures).Nodup) :
    ∃ s1 c1 c2, apply h lim fuel s d = some (s1, c1) ∧
      apply h lim fuel s1 d = some (s1, c2) := by
  obtain ⟨s1, c1, happ, _, _, hfind, htfind, _, _⟩ :=
    apply_spec h lim fuel s d hready hfuel hnb hnt
  obtain ⟨r1, r2, r3, r4, r5, r6⟩ := hready
  have hfixR : ∀ R L, bufSet d R L →
      slotAfter h (mapFind s1.buffers (R, L)) = mapFind s1.buffers (R, L) := by
    intro R L hset
    rw [hfind R L, if_pos hset, slotAfter_idem]
  have hfixT : ∀ i, i ∈ List.range' 0 lim.maxTextureBindings → d.textures.isSet i = true →
      texAfter (mapFind s1.textures i) = mapFind s1.textures i := by
    intro i hi hb
    have hset : texSet lim d i := by
      refine ⟨?_, (Bitset.test_eq_some_true _ _).mpr hb⟩
      rw [List.mem_range'_1] at hi
      omega
    rw [htfind i, if_pos hset, texAfter_idem]
  have hb1 : ∀ i, d.ssbos.isSet i = true → bufSet d GL_SHADER_STORAGE_BUFFER i :=
    fun i hb => (bufSet_iff d _ i).mpr (Or.inl ⟨rfl, hb⟩)
  have hb2 : ∀ i, d.ubos.isSet i = true → bufSet d GL_UNIFORM_BUFFER i :=
    fun i hb => (bufSet_iff d _ i).mpr (Or.inr (Or.inl ⟨rfl, hb⟩))
  have hb3 : ∀ i, d.acbos.isSet i = true → bufSet d GL_ATOMIC_COUNTER_BUFFER i :=
    fun i hb => (bufSet_iff d _ i).mpr (Or.inr (Or.inr (Or.inl ⟨rfl, hb⟩)))
  have hb4 : ∀ i, d.tfbos.isSet i = true → bufSet d GL_TRANSFORM_FEEDBACK_BUFFER i :=
    fun i hb => (bufSet_iff d _ i).mpr (Or.inr (Or.inr (Or.inr ⟨rfl, hb⟩)))
  obtain ⟨st1, e1, q1⟩ := applyBuffers_fixed h fuel d.ssbos GL_SHADER_STORAGE_BUFFER
    (s1.buffers, []) r1 hfuel (fun i hb => hfixR _ i (hb1 i hb))
  simp only at q1
  obtain ⟨st2, e2, q2⟩ := applyBuffers_fixed h fuel d.ubos GL_UNIFORM_BUFFER
    st1 r2 hfuel (fun i hb => by rw [q1]; exact hfixR _ i (hb2 i hb))
  rw [q1] at q2
  obtain ⟨st3, e3, q3⟩ := applyBuffers_fixed h fuel d.acbos GL_ATOMIC_COUNTER_BUFFER
    st2 r3 hfuel (fun i hb => by rw [q2]; exact hfixR _ i (hb3 i hb))
  rw [q2] at q3
  obtain ⟨st4, e4, q4⟩ := applyBuffers_fixed h fuel d.tfbos GL_TRANSFORM_FEEDBACK_BUFFER
    st3 r4 hfuel (fun i hb => by rw [q3]; exact hfixR _ i (hb4 i hb))
  rw [q3] at q4
  have e5 := applyTextures_eq h fuel d.textures lim.maxTextureBindings
    (s1.textures, st4.2) r5 r6 hfuel
  have q5 := foldl_applyTextureIter_fixed h d.textures
    (List.range' 0 lim.maxTextureBindings) (s1.textures, st4.2) hfixT
  simp only at q5
  refine ⟨s1, c1, ((List.range' 0 lim.maxTextureBindings).foldl
    (applyTextureIter h d.textures) (s1.textures, st4.2)).2, happ, ?_⟩
  simp [apply, e1, e2, e3, e4, e5, q4, q5]

/-- Witness of C11: `removalState` under `exampleDiff`. -/
theorem apply_idempotent_witness :
    ApplyReady exampleLimits exampleDiff ∧
    ∃ s1 c1 c2, apply exampleHeap exampleLimits 256 removalState exampleDiff = some (s1, c1) ∧
      apply exampleHeap exampleLimits 256 s1 exampleDiff = some (s1, c2) :=
  ⟨by decide,
   apply_idempotent exampleHeap exampleLimits 256 removalState exampleDiff
     (by decide) (by decide) (by decide) (by decide)⟩


/-! ## Symmetry of `makeDiff` -/

theorem Bitset.ext_isSet (b1 b2 : Bitset) (hs : b1.size = b2.size)
    (hb : ∀ i, b1.isSet i = b2.isSet i) : b1 = b2 := by
  obtain ⟨l1⟩ := b1
  obtain ⟨l2⟩ := b2
  simp only [Bitset.size] at hs
  congr 1
  apply List.ext_getElem hs
  intro i h1 h2
  have := hb i
  simp only [Bitset.isSet, List.getD_eq_getElem?_getD, List.getElem?_eq_getElem h1,
    List.getElem?_eq_getElem h2, Option.getD_some] at this
  exact this

theorem StateDiff_t.ext_bitsetOf (d1 d2 : StateDiff_t)
    (hb : ∀ R, isBufferRole R → d1.bitsetOf R = d2.bitsetOf R)
    (ht : d1.textures = d2.textures) : d1 = d2 := by
  obtain ⟨n1, n2, n3, n4, n5, n6⟩ := gl_roles_distinct
  have h1 := hb GL_SHADER_STORAGE_BUFFER (Or.inl rfl)
  have h2 := hb GL_UNIFORM_BUFFER (Or.inr (Or.inl rfl))
  have h3 := hb GL_ATOMIC_COUNTER_BUFFER (Or.inr (Or.inr (Or.inl rfl)))
  have h4 := hb GL_TRANSFORM_FEEDBACK_BUFFER (Or.inr (Or.inr (Or.inr rfl)))
  simp only [StateDiff_t.bitsetOf, if_true, n1.symm, n2.symm, n3.symm, n4.symm, n5.symm,
    n6.symm, if_false] at h1 h2 h3 h4
  cases d1
  cases d2
  simp only at h1 h2 h3 h4 ht
  rw [h1, h2, h3, h4, ht]

theorem bufBit_symm (h : Heap) (A B : BindingState) (hA : A.WF) (hB : B.WF)
    (forced : Bool) (R L : Nat) :
    bufBit h forced A B.buffers R L (bufBit h forced B A.buffers R L false) =
      bufBit h forced B A.buffers R L (bufBit h forced A B.buffers R L false) := by
  cases forced with
  | false =>
    rw [bufBit_wf h A B hA hB, bufBit_wf h B A hB hA, differs_comm]
    cases (B.getBufferBinding (R, L)).differs (A.getBufferBinding (R, L)) <;>
      cases changed h (A.getBufferBinding (R, L)) <;>
      cases changed h (B.getBufferBinding (R, L)) <;> rfl
  | true =>
    rw [Bool.eq_iff_iff, bufBit_forced, bufBit_forced, bufBit_forced, bufBit_forced]
    simp only [Bool.false_eq_true, or_false]
    exact Or.comm

theorem texBit_symm (A B : BindingState) (hA : A.WF) (hB : B.WF) (forced : Bool) (u : Nat) :
    texBit forced A B.textures u (texBit forced B A.textures u false) =
      texBit forced B A.textures u (texBit forced A B.textures u false) := by
  cases forced with
  | false =>
    rw [texBit_wf A B hA hB, texBit_wf B A hB hA, bne_swap]
  | true =>
    rw [Bool.eq_iff_iff, texBit_forced, texBit_forced, texBit_forced, texBit_forced]
    simp only [Bool.false_eq_true, or_false]
    exact Or.comm

/-- C15 (symmetry of the diff). For well-formed states `A` and `B` whose
locations are below the capacities and for every `forced`, `A.makeDiff(B)`
and `B.makeDiff(A)` return the same diff: the same five bitsets. -/
theorem makeDiff_symmetric (h : Heap) (lim : Limits) (A B : BindingState) (forced : Bool)
    (hA : A.WF) (hB : B.WF) (hAr : A.InRange lim) (hBr : B.InRange lim) :
    ∃ d, makeDiff h lim A B forced = some d ∧ makeDiff h lim B A forced = some d := by
  obtain ⟨d1, hd1, hs1, ht1, hb1, hx1⟩ := makeDiff_spec h lim A B forced hAr hBr
  obtain ⟨d2, hd2, hs2, ht2, hb2, hx2⟩ := makeDiff_spec h lim B A forced hBr hAr
  have heq : d2 = d1 := by
    apply StateDiff_t.ext_bitsetOf
    · intro R hR
      apply Bitset.ext_isSet
      · rw [hs1, hs2]
      · intro i
        rw [hb1 R i hR, hb2 R i hR]
        exact (bufBit_symm h A B hA hB forced R i).symm
    · apply Bitset.ext_isSet
      · rw [ht1, ht2]
      · intro i
        rw [hx1 i, hx2 i]
        exact (texBit_symm A B hA hB forced i).symm
  exact ⟨d1, hd1, by rw [hd2, heq]⟩

/-- Witness of C15 on the example applied and target states. -/
theorem makeDiff_symmetric_witness :
    exampleApplied.WF ∧ exampleTarget.WF ∧ exampleApplied.InRange exampleLimits ∧
    exampleTarget.InRange exampleLimits ∧
    ∃ d, makeDiff exampleHeap exampleLimits exampleApplied exampleTarget false = some d ∧
      makeDiff exampleHeap exampleLimits exampleTarget exampleApplied false = some d :=
  ⟨by decide, by decide, by decide, by decide,
   makeDiff_symmetric exampleHeap exampleLimits exampleApplied exampleTarget false
     (by decide) (by decide) (by decide) (by decide)⟩

/-! ## Termination of the loops of `apply` -/

theorem applyBufferLoopTraced_fst (h : Heap) (bits : Bitset) (R : Nat) :
    ∀ (fuel i : Nat) (st : List (BufferKey × BufferBinding) × List GLCall),
      (applyBufferLoopTraced h bits R fuel i st).map Prod.fst =
        applyBufferLoop h bits R fuel i st := by
  intro fuel
  induction fuel with
  | zero => intro i st; rfl
  | succ f ih =>
    intro i st
    simp only [applyBufferLoopTraced, applyBufferLoop]
    by_cases hlt : i < bits.size
    · simp only [hlt, if_true]
      rcases bits.test i with _ | _ | _
      · rfl
      · simp only [Option.map_map]
        exact ih _ _
      · simp only [Option.map_map]
        exact ih _ _
    · simp [hlt]

theorem applyTextureLoopTraced_fst (h : Heap) (bits : Bitset) (maxTex : Nat) :
    ∀ (fuel i : Nat) (st : List (Nat × Option Nat) × List GLCall),
      (applyTextureLoopTraced h bits maxTex fuel i st).map Prod.fst =
        applyTextureLoop h bits maxTex fuel i st := by
  intro fuel
  induction fuel with
  | zero => intro i st; rfl
  | succ f ih =>
    intro i st
    simp only [applyTextureLoopTraced, applyTextureLoop]
    by_cases hlt : i < maxTex
    · simp only [hlt, if_true]
      rcases bits.test i with _ | _ | _
      · rfl
      · simp only [Option.map_map]
        exact ih _ _
      · simp only [Option.map_map]
        exact ih _ _
    · simp [hlt]

theorem applyBufferLoopTraced_tests (h : Heap) (bits : Bitset) (R : Nat)
    (hsz : bits.size ≤ 255) :
    ∀ (n fuel i : Nat) (st : List (BufferKey × BufferBinding) × List GLCall),
      i + n = bits.size → n < fuel →
      ∃ st', applyBufferLoopTraced h bits R fuel i st = some (st', List.range' i n) := by
  intro n
  induction n with
  | zero =>
    intro fuel i st hi hf
    cases fuel with
    | zero => omega
    | succ f =>
      have hge : ¬ i < bits.size := by omega
      exact ⟨st, by simp [applyBufferLoopTraced, hge]⟩
  | succ n ih =>
    intro fuel i st hi hf
    cases fuel with
    | zero => omega
    | succ f =>
      have hlt : i < bits.size := by omega
      have hmod : (i + 1) % 256 = i + 1 := Nat.mod_eq_of_lt (by omega)
      simp only [applyBufferLoopTraced, hlt, if_true, Bitset.test_of_lt _ _ hlt, hmod,
        List.range'_succ]
      cases hb : bits.isSet i with
      | true =>
        obtain ⟨st', hst'⟩ := ih f (i + 1) (bindOrRemoveBuffer h st R i) (by omega) (by omega)
        exact ⟨st', by simp [hst']⟩
      | false =>
        obtain ⟨st', hst'⟩ := ih f (i + 1) st (by omega) (by omega)
        exact ⟨st', by simp [hst']⟩

theorem applyTextureLoopTraced_tests (h : Heap) (bits : Bitset) (maxTex : Nat)
    (hmax : maxTex ≤ 255) (hbits : maxTex ≤ bits.size) :
    ∀ (n fuel i : Nat) (st : List (Nat × Option Nat) × List GLCall),
      i + n = maxTex → n < fuel →
      ∃ st', applyTextureLoopTraced h bits maxTex fuel i st = some (st', List.range' i n) := by
  intro n
  induction n with
  | zero =>
    intro fuel i st hi hf
    cases fuel with
    | zero => omega
    | succ f =>
      have hge : ¬ i < maxTex := by omega
      exact ⟨st, by simp [applyTextureLoopTraced, hge]⟩
  | succ n ih =>
    intro fuel i st hi hf
    cases fuel with
    | zero => omega
    | succ f =>
      have hlt : i < maxTex := by omega
      have hlt2 : i < bits.size := by omega
      have hmod : (i + 1) % 256 = i + 1 := Nat.mod_eq_of_lt (by omega)
      simp only [applyTextureLoopTraced, hlt, if_true, Bitset.test_of_lt _ _ hlt2, hmod,
        List.range'_succ]
      cases hb : bits.isSet i with
      | true =>
        obtain ⟨st', hst'⟩ := ih f (i + 1) (applyTextureStep h st i) (by omega) (by omega)
        exact ⟨st', by simp [hst']⟩
      | false =>
        obtain ⟨st', hst'⟩ := ih f (i + 1) st (by omega) (by omega)
        exact ⟨st', by simp [hst']⟩


/-- C17 (termination of the loops of apply). A buffer loop of `apply` over a
bitset of `N ≤ 255` positions, run from `i = 0` with an 8-bit counter,
returns, calls `test` at the positions `0, 1, ..., N - 1` once each in this
order, and every one of these calls is inside the bitset. The same holds for
the texture loop up to `getMaxTextureBindings() ≤ 255`, the texture bitset
having at least that many positions. -/
theorem apply_loops_terminate (h : Heap) (bits tbits : Bitset) (R maxTex fuel : Nat)
    (st : List (BufferKey × BufferBinding) × List GLCall)
    (tst : List (Nat × Option Nat) × List GLCall)
    (hsz : bits.size ≤ 255) (hmax : maxTex ≤ 255) (hin : maxTex ≤ tbits.size)
    (hfuel : 255 < fuel) :
    (∃ st', applyBufferLoop h bits R fuel 0 st = some st' ∧
      applyBufferLoopTraced h bits R fuel 0 st = some (st', List.range bits.size)) ∧
    (∀ i ∈ List.range bits.size, ∃ b, bits.test i = some b) ∧
    (∃ tst', applyTextureLoop h tbits maxTex fuel 0 tst = some tst' ∧
      applyTextureLoopTraced h tbits maxTex fuel 0 tst = some (tst', List.range maxTex)) ∧
    (∀ i ∈ List.range maxTex, ∃ b, tbits.test i = some b) := by
  refine ⟨?_, ?_, ?_, ?_⟩
  · obtain ⟨st', hst'⟩ := applyBufferLoopTraced_tests h bits R hsz bits.size fuel 0 st
      (by omega) (by omega)
    refine ⟨st', ?_, ?_⟩
    · rw [← applyBufferLoopTraced_fst, hst']
      rfl
    · rw [hst', List.range_eq_range']
  · intro i hi
    rw [List.mem_range] at hi
    exact ⟨_, Bitset.test_of_lt bits i hi⟩
  · obtain ⟨tst', htst'⟩ := applyTextureLoopTraced_tests h tbits maxTex hmax hin maxTex fuel 0
      tst (by omega) (by omega)
    refine ⟨tst', ?_, ?_⟩
    · rw [← applyTextureLoopTraced_fst, htst']
      rfl
    · rw [htst', List.range_eq_range']
  · intro i hi
    rw [List.mem_range] at hi
    exact ⟨_, Bitset.test_of_lt tbits i (by omega)⟩

/-- Witness of C17: the uniform and the texture bitset of `exampleDiff`, of
capacity 8. -/
theorem apply_loops_terminate_witness :
    exampleDiff.ubos.size ≤ 255 ∧ exampleLimits.maxTextureBindings ≤ 255 ∧
    exampleLimits.maxTextureBindings ≤ exampleDiff.textures.size ∧
    (∃ st', applyBufferLoop exampleHeap exampleDiff.ubos GL_UNIFORM_BUFFER 256 0
        (removalState.buffers, []) = some st' ∧
      applyBufferLoopTraced exampleHeap exampleDiff.ubos GL_UNIFORM_BUFFER 256 0
        (removalState.buffers, []) = some (st', List.range exampleDiff.ubos.size)) ∧
    (∀ i ∈ List.range exampleDiff.ubos.size, ∃ b, exampleDiff.ubos.test i = some b) ∧
    (∃ tst', applyTextureLoop exampleHeap exampleDiff.textures
        exampleLimits.maxTextureBindings 256 0 (removalState.textures, []) = some tst' ∧
      applyTextureLoopTraced exampleHeap exampleDiff.textures
        exampleLimits.maxTextureBindings 256 0 (removalState.textures, []) =
          some (tst', List.range exampleLimits.maxTextureBindings)) ∧
    (∀ i ∈ List.range exampleLimits.maxTextureBindings,
      ∃ b, exampleDiff.textures.test i = some b) :=
  ⟨by decide, by decide, by decide,
   apply_loops_terminate exampleHeap exampleDiff.ubos exampleDiff.textures GL_UNIFORM_BUFFER
     exampleLimits.maxTextureBindings 256 (removalState.buffers, [])
     (removalState.textures, []) (by decide) (by decide) (by decide) (by decide)⟩

/-- The bound of C17 is needed: over a bitset of 256 or more positions the
8-bit counter never reaches the size, and a buffer loop of `apply` does not
return, whatever the fuel. -/
theorem applyBufferLoop_wide (h : Heap) (bits : Bitset) (R : Nat) (hsz : 256 ≤ bits.size) :
    ∀ (fuel i : Nat) (st : List (BufferKey × BufferBinding) × List GLCall),
      i < 256 → applyBufferLoop h bits R fuel i st = none := by
  intro fuel
  induction fuel with
  | zero => intro i st _; rfl
  | succ f ih =>
    intro i st hi
    have hlt : i < bits.size := by omega
    have hnext : (i + 1) % 256 < 256 := Nat.mod_lt _ (by omega)
    simp only [applyBufferLoop, hlt, if_true, Bitset.test_of_lt _ _ hlt]
    cases bits.isSet i with
    | true => exact ih _ _ hnext
    | false => exact ih _ _ hnext

/-- On the bitset `wideBitset` of 256 positions, whose bit 0 is set, the
guarded block of `apply` does not return for any fuel. -/
theorem applyBuffers_wideBitset (fuel : Nat)
    (st : List (BufferKey × BufferBinding) × List GLCall) :
    applyBuffers exampleHeap fuel wideBitset GL_UNIFORM_BUFFER st = none := by
  have hany : wideBitset.any = true := by
    simp only [wideBitset, Bitset.any, List.any_cons, id, Bool.true_or]
  have hsz : 256 ≤ wideBitset.size := by
    simp only [wideBitset, Bitset.size, List.length_cons, List.length_replicate]
    omega
  unfold applyBuffers
  rw [hany]
  simp only [if_true]
  exact applyBufferLoop_wide exampleHeap wideBitset GL_UNIFORM_BUFFER hsz fuel 0 st (by omega)


/-! ## Theorems about the hierarchical binding state -/

theorem mapFind_isSome_iff {κ α : Type} [DecidableEq κ] {l : List (κ × α)} {k : κ} :
    (mapFind l k).isSome = true ↔ k ∈ mapKeys l := by
  cases hf : mapFind l k with
  | none =>
    have := mapFind_eq_none_iff.mp hf
    simp [this]
  | some v =>
    have : k ∈ mapKeys l := by
      by_contra hc
      rw [mapFind_eq_none_iff.mpr hc] at hf
      cases hf
    simp [this]

/-- C12 (read access never creates). On every hierarchical state and for all
indices: `getBinding(set, binding)` fails exactly when `hasBinding(set,
binding)` returns false; `hasBinding` never throws and returns true exactly
when `set` is a key of the state and `binding` a key of the set stored under
it; `getBindingSet(set)` fails exactly when `hasBindingSet(set)` is false,
which is when `set` is not a key; and each of the four calls leaves the state
as it was. -/
theorem State.reads_do_not_create (s : State.BindingState) (set binding : Nat) :
    ((s.getBinding set binding).1 = none ↔ (s.hasBinding set binding).1 = some false) ∧
    ((s.hasBinding set binding).1 = some true ↔
      ∃ bs, mapFind s.bindingSets set = some bs ∧ binding ∈ mapKeys bs.bindings) ∧
    (∃ b, (s.hasBinding set binding).1 = some b) ∧
    ((s.getBindingSet set).1 = none ↔ (s.hasBindingSet set).1 = false) ∧
    ((s.hasBindingSet set).1 = true ↔ set ∈ mapKeys s.bindingSets) ∧
    (s.getBinding set binding).2 = s ∧ (s.hasBinding set binding).2 = s ∧
    (s.getBindingSet set).2 = s ∧ (s.hasBindingSet set).2 = s := by
  refine ⟨?_, ?_, ?_, ?_, ?_, rfl, rfl, rfl, rfl⟩
  · unfold State.BindingState.getBinding State.BindingState.hasBinding
      State.BindingState.hasBindingSet
    cases hf : mapFind s.bindingSets set with
    | none => simp
    | some bs =>
      simp only [Option.isSome_some, if_true, Option.some.injEq]
      unfold State.BindingSet.getBinding State.BindingSet.hasBinding
      cases mapFind bs.bindings binding <;> simp
  · unfold State.BindingState.hasBinding State.BindingState.hasBindingSet
    cases hf : mapFind s.bindingSets set with
    | none => simp
    | some bs =>
      simp only [Option.isSome_some, if_true, Option.some.injEq, exists_eq_left']
      unfold State.BindingSet.hasBinding
      exact mapFind_isSome_iff
  · unfold State.BindingState.hasBinding State.BindingState.hasBindingSet
    cases hf : mapFind s.bindingSets set with
    | none => exact ⟨false, by simp⟩
    | some bs => exact ⟨bs.hasBinding binding, by simp⟩
  · unfold State.BindingState.getBindingSet State.BindingState.hasBindingSet
    cases mapFind s.bindingSets set <;> simp
  · unfold State.BindingState.hasBindingSet
    exact mapFind_isSome_iff

/-- C13 (reset). Whatever the state held and whatever its flag was, after
`reset()` no set index is a key, `hasBindingSet` and `hasBinding` return
false for all indices, and the top-level flag `dirty` is set. -/
theorem State.reset_clears (s : State.BindingState) (set binding : Nat) :
    s.reset.bindingSets = [] ∧ (s.reset.hasBindingSet set).1 = false ∧
    (s.reset.hasBinding set binding).1 = some false ∧ s.reset.dirty = true := by
  refine ⟨rfl, rfl, rfl, rfl⟩

/-- The run of C13 on the example state. -/
theorem State.reset_exampleState :
    (State.exampleState.hasBinding 0 2).1 = some true ∧
    State.exampleState.reset = ⟨true, []⟩ ∧
    (State.exampleState.reset.hasBinding 0 2).1 = some false := by
  decide

theorem mapFind_append_new {κ α : Type} [DecidableEq κ] {l : List (κ × α)} {k : κ} (v : α)
    (hf : mapFind l k = none) : mapFind (l ++ [(k, v)]) k = some v := by
  induction l with
  | nil => simp [mapFind]
  | cons x rest ih =>
    obtain ⟨k', v'⟩ := x
    by_cases hk : k' = k
    · simp [mapFind, hk] at hf
    · simp only [mapFind, hk, if_false] at hf
      simp only [List.cons_append, mapFind, hk, if_false]
      exact ih hf

theorem mapFind_mapPut {κ α : Type} [DecidableEq κ] (l : List (κ × α)) (k : κ) (v : α) :
    mapFind (mapPut l k v) k = some v := by
  unfold mapPut
  cases hf : mapFind l k with
  | none =>
    simp only [Option.isSome_none, Bool.false_eq_true, if_false]
    exact mapFind_append_new v hf
  | some w =>
    simp only [Option.isSome_some, if_true]
    rw [mapFind_mapAssign, hf]
    simp

theorem mapPut_mapPut {κ α : Type} [DecidableEq κ] (l : List (κ × α)) (k : κ) (v : α) :
    mapPut (mapPut l k v) k v = mapPut l k v := by
  have hf := mapFind_mapPut l k v
  generalize mapPut l k v = m at hf ⊢
  simp only [mapPut, hf, Option.isSome_some, if_true]
  exact mapAssign_self hf

theorem State.bindRef_twice (refs : List (Option Nat)) (r : Option Nat) (arrayElement : Nat) :
    State.bindRef (State.bindRef refs r arrayElement).2 r arrayElement =
      (false, (State.bindRef refs r arrayElement).2) := by
  have hg : arrayElement < (if arrayElement < refs.length then refs
      else refs ++ List.replicate (arrayElement + 1 - refs.length) none).length := by
    split
    · assumption
    · simp only [List.length_append, List.length_replicate]
      omega
  unfold State.bindRef
  generalize (if arrayElement < refs.length then refs
      else refs ++ List.replicate (arrayElement + 1 - refs.length) none) = g at hg ⊢
  have hlen : arrayElement < (List.set g arrayElement r).length := by
    rw [List.length_set]
    exact hg
  simp only [hlen, if_true, List.set_set]
  simp

theorem State.binding_bind_twice (b : State.Binding) (kind : State.ResourceKind)
    (r : Option Nat) (arrayElement : Nat) :
    (b.bind kind r arrayElement).2.bind kind r arrayElement =
      (false, (b.bind kind r arrayElement).2) := by
  cases kind <;> simp [State.Binding.bind, State.bindRef_twice]

theorem State.bindingSet_bind_twice (dirty0 : Bool) (bs : State.BindingSet)
    (kind : State.ResourceKind) (r : Option Nat) (binding arrayElement : Nat) :
    (bs.bind dirty0 kind r binding arrayElement).2.bind dirty0 kind r binding arrayElement =
      (false, (bs.bind dirty0 kind r binding arrayElement).2) := by
  unfold State.BindingSet.bind
  simp only [mapFind_mapPut, State.binding_bind_twice, mapPut_mapPut, Bool.or_false]

theorem State.bindingState_bind_twice (dirty0 : Bool) (s : State.BindingState)
    (kind : State.ResourceKind) (r : Option Nat) (set binding arrayElement : Nat) :
    (s.bind dirty0 kind r set binding arrayElement).2.bind dirty0 kind r set binding
        arrayElement =
      (false, (s.bind dirty0 kind r set binding arrayElement).2) := by
  unfold State.BindingState.bind
  simp only [mapFind_mapPut, State.bindingSet_bind_twice, mapPut_mapPut, Bool.or_false]

/-- C14 (no-op idempotence). For every hierarchical state, reference `r` and
triple `(set, binding, arrayElement)`, the second of two successive calls of
`bindBuffer`, of `bindTexture` or of `bindInputImage` with `r` at that triple
returns false and leaves the state, every dirty flag of it included, as the
first call left it. -/
theorem State.bind_same_twice (dirty0 : Bool) (s : State.BindingState) (r : Option Nat)
    (set binding arrayElement : Nat) :
    ((s.bindBuffer dirty0 r set binding arrayElement).2.bindBuffer dirty0 r set binding
        arrayElement = (false, (s.bindBuffer dirty0 r set binding arrayElement).2)) ∧
    ((s.bindTexture dirty0 r set binding arrayElement).2.bindTexture dirty0 r set binding
        arrayElement = (false, (s.bindTexture dirty0 r set binding arrayElement).2)) ∧
    ((s.bindInputImage dirty0 r set binding arrayElement).2.bindInputImage dirty0 r set
        binding arrayElement =
      (false, (s.bindInputImage dirty0 r set binding arrayElement).2)) :=
  ⟨State.bindingState_bind_twice dirty0 s _ r set binding arrayElement,
   State.bindingState_bind_twice dirty0 s _ r set binding arrayElement,
   State.bindingState_bind_twice dirty0 s _ r set binding arrayElement⟩

/-- The run of C14 from the empty hierarchical state: the first call creates
set 0 and binding 2, grows the vector, returns true and marks every level;
the second call returns false and changes nothing. -/
theorem State.bind_same_twice_run :
    State.BindingState.bindBuffer false ⟨false, []⟩ (some 4) 0 2 0 =
      (true, State.exampleState) ∧
    State.BindingState.bindBuffer false State.exampleState (some 4) 0 2 0 =
      (false, State.exampleState) := by
  decide

/-! ## Theorems about the indexed setters -/

theorem vectorWrite_none (v : List Nat) (index value : Nat) (hi : ¬ v.length > index) :
    vectorWrite v index value = none := by
  unfold vectorWrite
  have : ¬ index < v.length := hi
  simp [this]

/-- The indexed setters on every input: a valid index is answered with the
warning and no write, and an index outside the vector reaches the write. -/
theorem setters_on_every_index (s : ViewportState) (c : ColorBlendState) (value index : Nat) :
    s.setViewport value index =
      (if index < s.viewports.length then
        SetterResult.warned (Warning.invalidViewportIndex index) s
       else SetterResult.outOfRange) ∧
    s.setScissor value index =
      (if index < s.scissors.length then
        SetterResult.warned (Warning.invalidScissorIndex index) s
       else SetterResult.outOfRange) ∧
    c.setAttachment value index =
      (if index < c.attachments.length then
        SetterResult.warned (Warning.invalidAttachmentIndex index) c
       else SetterResult.outOfRange) := by
  refine ⟨?_, ?_, ?_⟩
  · unfold ViewportState.setViewport
    by_cases hi : s.viewports.length > index
    · simp [hi]
    · rw [vectorWrite_none _ _ _ hi]
  · unfold ViewportState.setScissor
    by_cases hi : s.scissors.length > index
    · simp [hi]
    · rw [vectorWrite_none _ _ _ hi]
  · unfold ColorBlendState.setAttachment
    by_cases hi : c.attachments.length > index
    · simp [hi]
    · rw [vectorWrite_none _ _ _ hi]

/-- C16, the code at the failing inputs: on vectors of one element, each
setter called with the valid index 0 warns and writes nothing, and called
with the index 1 passes the guard and reaches the write outside the vector. -/
theorem setters_guard_inverted :
    ViewportState.setViewport ⟨[7], [8]⟩ 9 0 =
      SetterResult.warned (Warning.invalidViewportIndex 0) ⟨[7], [8]⟩ ∧
    ViewportState.setViewport ⟨[7], [8]⟩ 9 1 = SetterResult.outOfRange ∧
    ViewportState.setScissor ⟨[7], [8]⟩ 9 0 =
      SetterResult.warned (Warning.invalidScissorIndex 0) ⟨[7], [8]⟩ ∧
    ViewportState.setScissor ⟨[7], [8]⟩ 9 1 = SetterResult.outOfRange ∧
    ColorBlendState.setAttachment ⟨[7]⟩ 9 0 =
      SetterResult.warned (Warning.invalidAttachmentIndex 0) ⟨[7]⟩ ∧
    ColorBlendState.setAttachment ⟨[7]⟩ 9 1 = SetterResult.outOfRange := by
  decide


end Rendering
